import Mathlib

/-!
# MusicApp: playlist and transport controller

A shallow embedding of `include/Playlist.h`, of the interface
`include/AudioPlayer.h` and of the controller `include/MusicPlayer.h`, followed by
the properties proved about it.

Conventions of the embedding.

* `std::string` is `String`; `std::vector<T>` is `List T`.
* `size_t` is an unsigned 64-bit integer, carried as a `Nat`; `int` is a signed
  32-bit integer, carried as an `Int`.  The conversions between the two that the
  source performs implicitly (mixed `int`/`size_t` arithmetic, `static_cast<int>`,
  assignment of a `size_t` to the `int` cursor) are written out as `toSizeT` and
  `toInt`, both modular.
* `std::mt19937` and `std::shuffle` are library code: the generator state is a
  `Nat` and `std::shuffle` is the parameter `StdShuffle`, an arbitrary
  state-passing reordering.
* A member function that mutates the object and returns `bool` is a function into
  `Bool × Playlist`.
* The backend behind `audioPlayer_` is a table `AudioPlayer B` of its virtual
  members over a state `B`; `AudioPlayer.traced` records the calls made to it.
  A `float` value is the rational number it stands for; the result of a `float`
  addition or subtraction is rounded by the parameter `fl`, of which only the
  properties stated in the theorems are used; `roundFloat` is the rounding of
  IEEE 754 binary32 (to nearest, ties to even).
* A member of the controller that dereferences the result of `getCurrentTrack()`
  is `Option`-valued: `none` stands for an access outside a vector.
-/

namespace MusicApp

/-! ## Machine integers -/

/-- The number of values of `size_t` (64 bit). -/
def SIZE_MOD : Nat := 18446744073709551616

/-- The number of values of `int` (32 bit). -/
def INT_MOD : Nat := 4294967296

/-- The largest `int`. -/
def INT_MAX : Nat := 2147483647

/-- Conversion of an `int` to `size_t`: reduction modulo `2^64`. -/
def toSizeT (i : Int) : Nat := (i % (SIZE_MOD : Int)).toNat

/-- Conversion of a `size_t` to `int`: the two's-complement value of the low 32 bits. -/
def toInt (n : Nat) : Int :=
  if n % INT_MOD ≤ INT_MAX then ((n % INT_MOD : Nat) : Int)
  else ((n % INT_MOD : Nat) : Int) - (INT_MOD : Int)

/-! ## Strings -/

/-- The call `s.find_last_of(set)` of `std::string`, on the characters of `s`: the
greatest position holding a character of `set`, `none` for `npos`. -/
def find_last_of : List Char → List Char → Option Nat
  | [], _ => none
  | c :: s, set =>
    match find_last_of s set with
    | some j => some (j + 1)
    | none => if c ∈ set then some 0 else none

/-- File name of a path without directory and extension (`extractFileName`). -/
def extractFileName (path : String) : String :=
  let filename : List Char :=
    match find_last_of path.data ['/', '\\'] with
    | some lastSlash => path.data.drop (lastSlash + 1)
    | none => path.data
  match find_last_of filename ['.'] with
  | some lastDot => String.mk (filename.take lastDot)
  | none => String.mk filename

/-! ## Tracks -/

/-- Record `TrackInfo`.  The `float duration` only ever holds the constant `0.0f`
in the embedded code; it is carried as a rational number of seconds. -/
structure TrackInfo where
  filepath : String
  title : String
  artist : String
  duration : Rat
  deriving DecidableEq

/-- The constructor `TrackInfo(path)`. -/
def TrackInfo.ofPath (path : String) : TrackInfo :=
  { filepath := path
    title := if path.data ≠ [] then extractFileName path else ""
    artist := ""
    duration := 0 }

/-! ## The playlist -/

/-- The library routine `std::shuffle(first, last, rng)` on a vector of indices:
from the generator state and the vector it gives the reordered vector and the
new generator state.  The only property assumed is that the result is a
reordering of the input. -/
structure StdShuffle where
  run : Nat → List Nat → List Nat × Nat
  perm : ∀ (g : Nat) (l : List Nat), List.Perm (run g l).1 l

/-- Data members of `class Playlist`. -/
structure Playlist where
  tracks_ : List TrackInfo
  shuffledIndices_ : List Nat
  currentIndex_ : Int
  shuffleMode_ : Bool
  rng_ : Nat
  deriving DecidableEq

/-- Outcome of a function returning `const TrackInfo*`: the null pointer, a pointer
to a track of the list, or an access outside a vector (undefined in the source). -/
inductive TrackPtr where
  | nullptr : TrackPtr
  | track (t : TrackInfo) : TrackPtr
  | outOfBounds : TrackPtr
  deriving DecidableEq

namespace Playlist

/-- The constructor `Playlist()`; `seed` is the value drawn from
`std::random_device`. -/
def new (seed : Nat) : Playlist :=
  { tracks_ := [], shuffledIndices_ := [], currentIndex_ := -1,
    shuffleMode_ := false, rng_ := seed }

/-- Member `size()`. -/
def size (p : Playlist) : Nat := p.tracks_.length

/-- Member `isEmpty()`. -/
def isEmpty (p : Playlist) : Bool := p.tracks_.isEmpty

/-- Member `getCurrentIndex()`. -/
def getCurrentIndex (p : Playlist) : Int := p.currentIndex_

/-- Member `isShuffleEnabled()`. -/
def isShuffleEnabled (p : Playlist) : Bool := p.shuffleMode_

/-- Member `addTrack(filepath)`. -/
def addTrack (p : Playlist) (filepath : String) : Playlist :=
  let tracks := p.tracks_ ++ [TrackInfo.ofPath filepath]
  { p with
    tracks_ := tracks
    shuffledIndices_ := p.shuffledIndices_ ++ [tracks.length - 1]
    currentIndex_ := if p.currentIndex_ < 0 then 0 else p.currentIndex_ }

/-- Member `addTracks(files)`. -/
def addTracks (p : Playlist) (files : List String) : Playlist :=
  files.foldl addTrack p

/-- Private member `rebuildShuffleIndices()`. -/
def rebuildShuffleIndices (p : Playlist) : Playlist :=
  { p with shuffledIndices_ := List.range p.tracks_.length }

/-- Member `removeTrack(index)`. -/
def removeTrack (p : Playlist) (index : Nat) : Playlist :=
  if index < p.tracks_.length then
    let q := rebuildShuffleIndices { p with tracks_ := p.tracks_.eraseIdx index }
    if q.currentIndex_ ≥ toInt q.tracks_.length then
      { q with
        currentIndex_ :=
          toInt (if q.tracks_.isEmpty then toSizeT (-1) else q.tracks_.length - 1) }
    else q
  else p

/-- Member `clear()`. -/
def clear (p : Playlist) : Playlist :=
  { p with tracks_ := [], shuffledIndices_ := [], currentIndex_ := -1 }

/-- Member `getCurrentTrack()`. -/
def getCurrentTrack (p : Playlist) : TrackPtr :=
  if 0 ≤ p.currentIndex_ ∧ p.currentIndex_ < toInt p.tracks_.length then
    let entry : Option Nat :=
      if p.shuffleMode_ then p.shuffledIndices_[toSizeT p.currentIndex_]?
      else some (toSizeT p.currentIndex_)
    match entry with
    | none => TrackPtr.outOfBounds
    | some v =>
      let idx : Int := toInt v
      match p.tracks_[toSizeT idx]? with
      | some t => TrackPtr.track t
      | none => TrackPtr.outOfBounds
  else TrackPtr.nullptr

/-- Member `getTrack(index)`. -/
def getTrack (p : Playlist) (index : Nat) : TrackPtr :=
  match p.tracks_[index]? with
  | some t => TrackPtr.track t
  | none => TrackPtr.nullptr

/-- Member `next()`. -/
def next (p : Playlist) : Bool × Playlist :=
  if p.tracks_.isEmpty then (false, p)
  else
    (true,
      { p with
        currentIndex_ := toInt (toSizeT (p.currentIndex_ + 1) % p.tracks_.length) })

/-- Member `previous()`. -/
def previous (p : Playlist) : Bool × Playlist :=
  if p.tracks_.isEmpty then (false, p)
  else
    (true,
      { p with
        currentIndex_ :=
          toInt
            (((toSizeT (p.currentIndex_ - 1) + p.tracks_.length) % SIZE_MOD)
              % p.tracks_.length) })

/-- Member `jumpTo(index)`. -/
def jumpTo (p : Playlist) (index : Nat) : Bool × Playlist :=
  if index < p.tracks_.length then (true, { p with currentIndex_ := toInt index })
  else (false, p)

/-- Member `shuffle()`. -/
def shuffle (S : StdShuffle) (p : Playlist) : Playlist :=
  let q := rebuildShuffleIndices p
  let r := S.run q.rng_ q.shuffledIndices_
  { q with shuffledIndices_ := r.1, rng_ := r.2 }

/-- Member `setShuffle(enabled)`. -/
def setShuffle (S : StdShuffle) (p : Playlist) (enabled : Bool) : Playlist :=
  let q := { p with shuffleMode_ := enabled }
  if enabled then shuffle S q else q

/-- Member `isAtEnd()`. -/
def isAtEnd (p : Playlist) : Bool :=
  decide (p.currentIndex_ ≥ toInt p.tracks_.length - 1)

/-- Member `isAtBeginning()`. -/
def isAtBeginning (p : Playlist) : Bool :=
  decide (p.currentIndex_ ≤ 0)

end Playlist

/-! ## Sequences of playlist operations -/

/-- The mutating public members of `Playlist`, with their arguments. -/
inductive Op where
  | addTrack (filepath : String) : Op
  | addTracks (files : List String) : Op
  | removeTrack (index : Nat) : Op
  | clear : Op
  | next : Op
  | previous : Op
  | jumpTo (index : Nat) : Op
  | setShuffle (enabled : Bool) : Op
  | shuffle : Op

/-- Effect of one operation on the playlist (a returned `bool` is dropped). -/
def Op.apply (S : StdShuffle) (p : Playlist) : Op → Playlist
  | Op.addTrack f => p.addTrack f
  | Op.addTracks fs => p.addTracks fs
  | Op.removeTrack i => p.removeTrack i
  | Op.clear => p.clear
  | Op.next => p.next.2
  | Op.previous => p.previous.2
  | Op.jumpTo i => (p.jumpTo i).2
  | Op.setShuffle b => p.setShuffle S b
  | Op.shuffle => p.shuffle S

/-- The playlist after a sequence of operations, first operation first. -/
def run (S : StdShuffle) (ops : List Op) (p : Playlist) : Playlist :=
  ops.foldl (Op.apply S) p

/-- Every playlist met along a sequence of operations, the start and the end
included, holds at most `INT_MAX` tracks, so that `static_cast<int>(tracks_.size())`
is the size itself. -/
def withinIntRange (S : StdShuffle) : List Op → Playlist → Bool
  | [], p => decide (p.size ≤ INT_MAX)
  | op :: ops, p => decide (p.size ≤ INT_MAX) && withinIntRange S ops (op.apply S p)

/-- A sample `std::shuffle`: rotation of the vector by an amount drawn from the
generator state, which advances by the length of the vector. -/
def rotateShuffle : StdShuffle where
  run g l := (l.rotate (g % (l.length + 1)), g + l.length)
  perm _ l := List.rotate_perm l _

/-! ## Invariants of the playlist -/

/-- The permutation vector is a reordering of `0, …, size() - 1`. -/
def PermOK (p : Playlist) : Prop :=
  List.Perm p.shuffledIndices_ (List.range p.tracks_.length)

/-- The cursor is `-1` on an empty list and an index of the list otherwise. -/
def CursorOK (p : Playlist) : Prop :=
  (p.tracks_ = [] → p.currentIndex_ = -1) ∧
    (p.tracks_ ≠ [] → 0 ≤ p.currentIndex_ ∧ p.currentIndex_ < (p.tracks_.length : Int))

/-- A playlist reached from the constructor by a sequence of operations along
which the list never holds more than `INT_MAX` tracks. -/
def Reachable (S : StdShuffle) (p : Playlist) : Prop :=
  ∃ (seed : Nat) (ops : List Op),
    withinIntRange S ops (Playlist.new seed) = true ∧ run S ops (Playlist.new seed) = p

/-- A sample sequence of operations. -/
def sampleOps : List Op :=
  [Op.addTrack "music/a.mp3", Op.addTrack "music/b.ogg", Op.addTrack "c.wav", Op.next,
    Op.setShuffle true, Op.removeTrack 0, Op.addTrack "d.flac", Op.previous,
    Op.setShuffle true, Op.jumpTo 2]

/-- The playlist after the sample sequence, from the seed `2`. -/
def samplePlaylist : Playlist := run rotateShuffle sampleOps (Playlist.new 2)

/-- Three tracks added to a fresh playlist (seed `1`), then shuffle mode switched
on. -/
def shuffledSample : Playlist :=
  run rotateShuffle
    [Op.addTrack "a.mp3", Op.addTrack "b.mp3", Op.addTrack "c.mp3", Op.setShuffle true]
    (Playlist.new 1)

/-- The permutation and the generator state after a `removeTrack(index)` with the
index in range, in the words of the specification: the permutation is rebuilt in
identity order over the remaining tracks and, if shuffle mode is active, reshuffled
with the playlist's random source as `setShuffle(true)` does. -/
def specRemoveTrackShuffle (S : StdShuffle) (p : Playlist) (index : Nat) :
    List Nat × Nat :=
  let q := Playlist.rebuildShuffleIndices { p with tracks_ := p.tracks_.eraseIdx index }
  if p.shuffleMode_ then ((q.shuffle S).shuffledIndices_, (q.shuffle S).rng_)
  else (q.shuffledIndices_, q.rng_)

/-! ## The controller -/

/-- Enumeration `PlayState`. -/
inductive PlayState where
  | Stopped : PlayState
  | Playing : PlayState
  | Paused : PlayState
  deriving DecidableEq

/-- Enumeration `LoopMode`: `None` is no loop, `Single` repeats one track and `All`
repeats the list. -/
inductive LoopMode where
  | None : LoopMode
  | Single : LoopMode
  | All : LoopMode
  deriving DecidableEq

/-- Data members of `class MusicPlayer`; `B` is the state of the audio backend
behind `audioPlayer_`. -/
structure MusicPlayer (B : Type) where
  audioPlayer_ : B
  playlist_ : Playlist
  loopMode_ : LoopMode
  isRunning_ : Bool
  deriving DecidableEq

namespace MusicPlayer

/-- Member `setLoopMode(mode)`. -/
def setLoopMode {B : Type} (m : MusicPlayer B) (mode : LoopMode) : MusicPlayer B :=
  { m with loopMode_ := mode }

/-- Member `getLoopMode()`. -/
def getLoopMode {B : Type} (m : MusicPlayer B) : LoopMode := m.loopMode_

/-- Member `toggleLoopMode()`. -/
def toggleLoopMode {B : Type} (m : MusicPlayer B) : MusicPlayer B :=
  match m.loopMode_ with
  | LoopMode.None => { m with loopMode_ := LoopMode.All }
  | LoopMode.All => { m with loopMode_ := LoopMode.Single }
  | LoopMode.Single => { m with loopMode_ := LoopMode.None }

end MusicPlayer

/-! ## Rounding to `float` -/

/-- Rounding of a rational to the nearest integer, a tie going to the even one. -/
def halfEven (t : Rat) : Int :=
  if t - (⌊t⌋ : Rat) < 1 / 2 then ⌊t⌋
  else if 1 / 2 < t - (⌊t⌋ : Rat) then ⌊t⌋ + 1
  else if ⌊t⌋ % 2 = 0 then ⌊t⌋ else ⌊t⌋ + 1

/-- The spacing of the binary32 values around `x ≥ 0`: 24 significant bits, the
exponent not below `-126` (below `2^-126` the values are the subnormal ones). -/
def floatQuantum (x : Rat) : Rat := (2 : Rat) ^ (max (Int.log 2 x) (-126) - 23)

/-- Rounding of `x ≥ 0` to the nearest binary32 value, ties to the even significand. -/
def roundMagnitude (x : Rat) : Rat := (halfEven (x / floatQuantum x) : Rat) * floatQuantum x

/-- Rounding of a rational to `float` as IEEE 754 binary32 does it, symmetric in the
sign.  A result of magnitude `2^128` or more, which binary32 replaces by an infinity,
is kept as the finite value. -/
def roundFloat (x : Rat) : Rat :=
  if x < 0 then -(roundMagnitude (-x)) else roundMagnitude x

/-! ## The audio backend -/

/-- The state-changing calls of the interface `AudioPlayer`, with their
arguments. -/
inductive Call where
  | load (filepath : String) : Call
  | play : Call
  | pause : Call
  | stop : Call
  | seek (seconds : Rat) : Call
  | setVolume (volume : Rat) : Call
  deriving DecidableEq

/-- The abstract class `AudioPlayer`, as the table of its virtual members over the
state `B` of an implementation: a non-`const` member maps the state to the new
state (with the returned `bool` for `load`), a `const` member reads it.  A `float`
of seconds or of volume is carried as the rational number it stands for. -/
structure AudioPlayer (B : Type) where
  load : B → String → Bool × B
  play : B → B
  pause : B → B
  stop : B → B
  seek : B → Rat → B
  getCurrentTime : B → Rat
  getDuration : B → Rat
  setVolume : B → Rat → B
  getVolume : B → Rat
  getState : B → PlayState
  isPlaying : B → Bool

/-- A backend together with the record of the state-changing calls made to it, in
the order in which they were made. -/
def AudioPlayer.traced {B : Type} (A : AudioPlayer B) : AudioPlayer (B × List Call) where
  load s filepath :=
    ((A.load s.1 filepath).1, ((A.load s.1 filepath).2, s.2 ++ [Call.load filepath]))
  play s := (A.play s.1, s.2 ++ [Call.play])
  pause s := (A.pause s.1, s.2 ++ [Call.pause])
  stop s := (A.stop s.1, s.2 ++ [Call.stop])
  seek s seconds := (A.seek s.1 seconds, s.2 ++ [Call.seek seconds])
  getCurrentTime s := A.getCurrentTime s.1
  getDuration s := A.getDuration s.1
  setVolume s volume := (A.setVolume s.1 volume, s.2 ++ [Call.setVolume volume])
  getVolume s := A.getVolume s.1
  getState s := A.getState s.1
  isPlaying s := A.isPlaying s.1

/-- The class `WindowsAudioPlayer` of a build that is not for Windows: no member
does anything and every load fails. -/
def stubAudioPlayer : AudioPlayer Unit where
  load _ _ := (false, ())
  play _ := ()
  pause _ := ()
  stop _ := ()
  seek _ _ := ()
  getCurrentTime _ := 0
  getDuration _ := 0
  setVolume _ _ := ()
  getVolume _ := 0
  getState _ := PlayState.Stopped
  isPlaying _ := false

/-- State and call record of a traced backend after a request to load `filepath`
followed, only if the load succeeded, by a request to play. -/
def loadThenPlay {B : Type} (A : AudioPlayer B) (s : B × List Call) (filepath : String) :
    B × List Call :=
  if (A.load s.1 filepath).1 then
    (A.play (A.load s.1 filepath).2, s.2 ++ [Call.load filepath, Call.play])
  else ((A.load s.1 filepath).2, s.2 ++ [Call.load filepath])

/-- State of the sample backend `samplePlayer`. -/
structure PlayerState where
  currentFile_ : String
  state_ : PlayState
  position : Rat
  duration : Rat
  volume_ : Rat
  deriving DecidableEq

/-- A sample backend: a load succeeds exactly on the paths of `readable` and leaves
the player stopped at position `0`, `seek` sets the position and `play` sets the
state to `Playing`. -/
def samplePlayer (readable : List String) : AudioPlayer PlayerState where
  load b filepath :=
    if filepath ∈ readable then
      (true, { b with currentFile_ := filepath, state_ := PlayState.Stopped,
                      position := 0, duration := 180 })
    else
      (false, { b with currentFile_ := "", state_ := PlayState.Stopped, position := 0 })
  play b := { b with state_ := PlayState.Playing }
  pause b := if b.state_ = PlayState.Playing then { b with state_ := PlayState.Paused } else b
  stop b := { b with state_ := PlayState.Stopped, position := 0 }
  seek b seconds := { b with position := seconds }
  getCurrentTime b := b.position
  getDuration b := b.duration
  setVolume b volume := { b with volume_ := max 0 (min 100 volume) }
  getVolume b := b.volume_
  getState b := b.state_
  isPlaying b := decide (b.state_ = PlayState.Playing)

/-- The sample backend with a `play()` that has no effect, as the one of the stub. -/
def mutePlayer (readable : List String) : AudioPlayer PlayerState :=
  { samplePlayer readable with play := fun b => b }

/-- The sample backend before anything is loaded. -/
def idlePlayerState : PlayerState :=
  { currentFile_ := "", state_ := PlayState.Stopped, position := 0, duration := 0,
    volume_ := 50 }

/-! ## The controller: transport -/

namespace MusicPlayer

/-- Member `playCurrentTrack()`.  The result is `none` where `getCurrentTrack()`
reads outside a vector. -/
def playCurrentTrack {B : Type} (A : AudioPlayer B) (m : MusicPlayer B) :
    Option (Bool × MusicPlayer B) :=
  match m.playlist_.getCurrentTrack with
  | TrackPtr.outOfBounds => none
  | TrackPtr.nullptr => some (false, m)
  | TrackPtr.track t =>
    let r := A.load m.audioPlayer_ t.filepath
    if r.1 then some (true, { m with audioPlayer_ := A.play r.2 })
    else some (false, { m with audioPlayer_ := r.2 })

/-- Member `stop()`. -/
def stop {B : Type} (A : AudioPlayer B) (m : MusicPlayer B) : MusicPlayer B :=
  { m with audioPlayer_ := A.stop m.audioPlayer_ }

/-- Member `next()`. -/
def next {B : Type} (A : AudioPlayer B) (m : MusicPlayer B) : Option (MusicPlayer B) :=
  let r := m.playlist_.next
  let m1 := { m with playlist_ := r.2 }
  if r.1 then (playCurrentTrack A m1).map Prod.snd else some m1

/-- Member `previous()`. -/
def previous {B : Type} (A : AudioPlayer B) (m : MusicPlayer B) : Option (MusicPlayer B) :=
  if A.getCurrentTime m.audioPlayer_ > 3 then
    some { m with audioPlayer_ := A.seek m.audioPlayer_ 0 }
  else
    let r := m.playlist_.previous
    let m1 := { m with playlist_ := r.2 }
    if r.1 then (playCurrentTrack A m1).map Prod.snd else some m1

/-- Member `jumpTo(index)`. -/
def jumpTo {B : Type} (A : AudioPlayer B) (m : MusicPlayer B) (index : Nat) :
    Option (Bool × MusicPlayer B) :=
  let r := m.playlist_.jumpTo index
  let m1 := { m with playlist_ := r.2 }
  if r.1 then playCurrentTrack A m1 else some (false, m1)

/-- Member `seekForward(seconds)`; `fl` rounds the sum to `float`. -/
def seekForward {B : Type} (fl : Rat → Rat) (A : AudioPlayer B) (m : MusicPlayer B)
    (seconds : Rat) : MusicPlayer B :=
  let newPos := fl (A.getCurrentTime m.audioPlayer_ + seconds)
  let duration := A.getDuration m.audioPlayer_
  if newPos < duration then { m with audioPlayer_ := A.seek m.audioPlayer_ newPos }
  else m

/-- Member `seekBackward(seconds)`; `fl` rounds the difference to `float`. -/
def seekBackward {B : Type} (fl : Rat → Rat) (A : AudioPlayer B) (m : MusicPlayer B)
    (seconds : Rat) : MusicPlayer B :=
  let newPos := fl (A.getCurrentTime m.audioPlayer_ - seconds)
  let newPos := if newPos < 0 then 0 else newPos
  { m with audioPlayer_ := A.seek m.audioPlayer_ newPos }

/-- Private member `onTrackEnd()`, the handler of the end of a track. -/
def onTrackEnd {B : Type} (A : AudioPlayer B) (m : MusicPlayer B) : Option (MusicPlayer B) :=
  match m.loopMode_ with
  | LoopMode.Single =>
    some { m with audioPlayer_ := A.play (A.seek m.audioPlayer_ 0) }
  | LoopMode.All =>
    (playCurrentTrack A { m with playlist_ := m.playlist_.next.2 }).map Prod.snd
  | LoopMode.None =>
    if !m.playlist_.isAtEnd then
      (playCurrentTrack A { m with playlist_ := m.playlist_.next.2 }).map Prod.snd
    else some m

/-- The handler of the end of a track run `k` times in a row. -/
def onTrackEndTimes {B : Type} (A : AudioPlayer B) : Nat → MusicPlayer B → Option (MusicPlayer B)
  | 0, m => some m
  | k + 1, m => (onTrackEnd A m).bind (onTrackEndTimes A k)

end MusicPlayer

/-- The controller right after construction around a backend in state `b`, with
the playlist `p` put in its place. -/
def playerOf {B : Type} (b : B) (p : Playlist) (mode : LoopMode) : MusicPlayer B :=
  { audioPlayer_ := b, playlist_ := p, loopMode_ := mode, isRunning_ := true }

/-- The playlist `[A, B, C]` with the cursor moved to `C`. -/
def playlistABC : Playlist :=
  run rotateShuffle
    [Op.addTrack "A.mp3", Op.addTrack "B.mp3", Op.addTrack "C.mp3", Op.jumpTo 2]
    (Playlist.new 0)

/-- The playlist `[A, B]` with the cursor moved to `B`. -/
def playlistAB : Playlist :=
  run rotateShuffle [Op.addTrack "A.mp3", Op.addTrack "B.mp3", Op.jumpTo 1] (Playlist.new 0)

/-- The sample backend playing `B.mp3` at the given position. -/
def playingAt (position : Rat) : PlayerState :=
  { currentFile_ := "B.mp3", state_ := PlayState.Playing, position := position,
    duration := 180, volume_ := 50 }

/-- A controller over the playlist `[A, B]` (cursor on `B`) and the traced sample
backend playing `B.mp3` at the given position, with nothing recorded. -/
def controllerPlayingAt (position : Rat) : MusicPlayer (PlayerState × List Call) :=
  playerOf (playingAt position, []) playlistAB LoopMode.None

/-- The sample backend on which `A.mp3`, `B.mp3` and `C.mp3` can be loaded. -/
def sampleBackend : AudioPlayer PlayerState := samplePlayer ["A.mp3", "B.mp3", "C.mp3"]

/-- A controller over the playlist `[A, B, C]` (cursor on `C`) and an idle traced
backend with nothing recorded. -/
def controllerABC (mode : LoopMode) : MusicPlayer (PlayerState × List Call) :=
  playerOf (idlePlayerState, []) playlistABC mode

/-- A controller over the playlist `[A, B]` (cursor on `B`) and an idle traced
backend with nothing recorded. -/
def controllerAB (mode : LoopMode) : MusicPlayer (PlayerState × List Call) :=
  playerOf (idlePlayerState, []) playlistAB mode

/-- A controller over the playlist `[A, B]` (cursor on `B`) and the traced stub
backend with nothing recorded. -/
def stubControllerAB (mode : LoopMode) : MusicPlayer (Unit × List Call) :=
  playerOf ((), []) playlistAB mode

/-- The `float` nearest to `0.005`. -/
def float_0_005 : Rat := 10737418 / 2147483648

/-- The `float` nearest to `10.005`. -/
def float_10_005 : Rat := 10491003 / 1048576

/-- The `float` nearest to `127.999`. -/
def float_127_999 : Rat := 16777085 / 131072

/-- The sample backend `5` ms into a track of `10.005` s. -/
def shortTrackState : PlayerState :=
  { currentFile_ := "B.mp3", state_ := PlayState.Playing, position := float_0_005,
    duration := float_10_005, volume_ := 50 }

/-- A controller over the playlist `[A, B]` and the traced sample backend `5` ms
into a track of `10.005` s, with nothing recorded. -/
def controllerShortTrack : MusicPlayer (PlayerState × List Call) :=
  playerOf (shortTrackState, []) playlistAB LoopMode.None

/-- The playlist is in a state the class keeps it in: the cursor and the
permutation satisfy their invariants and the size fits an `int`. -/
def WellFormed (p : Playlist) : Prop :=
  CursorOK p ∧ PermOK p ∧ p.tracks_.length ≤ INT_MAX

/-! ## Machine integers: conversions that preserve the value -/

theorem INT_MAX_eq : INT_MAX = 2147483647 := rfl

theorem SIZE_MOD_eq : SIZE_MOD = 18446744073709551616 := rfl

theorem toInt_of_le (n : Nat) (h : n ≤ INT_MAX) : toInt n = (n : Int) := by
  have h1 : n % INT_MOD = n := Nat.mod_eq_of_lt (by unfold INT_MAX at h; unfold INT_MOD; omega)
  unfold toInt
  rw [h1, if_pos h]

theorem toSizeT_of_nonneg (i : Int) (h0 : 0 ≤ i) (h1 : i < (SIZE_MOD : Int)) :
    toSizeT i = i.toNat := by
  unfold toSizeT
  rw [Int.emod_eq_of_lt h0 h1]

theorem toSizeT_natCast (n : Nat) (h : n < SIZE_MOD) : toSizeT (n : Int) = n := by
  rw [toSizeT_of_nonneg _ (Int.natCast_nonneg n) (by exact_mod_cast h)]
  simp

theorem toSizeT_neg_one : toSizeT (-1) = SIZE_MOD - 1 := by decide

theorem toSizeT_neg_two : toSizeT (-2) = SIZE_MOD - 2 := by decide

/-! ## The permutation invariant -/

theorem permOK_new (seed : Nat) : PermOK (Playlist.new seed) := by
  simp [PermOK, Playlist.new]

theorem permOK_addTrack (p : Playlist) (f : String) (h : PermOK p) :
    PermOK (p.addTrack f) := by
  unfold PermOK at *
  simp only [Playlist.addTrack, List.length_append, List.length_singleton,
    Nat.add_sub_cancel, List.range_succ]
  exact List.Perm.append h (List.Perm.refl _)

theorem permOK_addTracks (fs : List String) (p : Playlist) (h : PermOK p) :
    PermOK (p.addTracks fs) := by
  induction fs generalizing p with
  | nil => exact h
  | cons f fs ih => exact ih (p.addTrack f) (permOK_addTrack p f h)

theorem permOK_removeTrack (p : Playlist) (i : Nat) (h : PermOK p) :
    PermOK (p.removeTrack i) := by
  unfold Playlist.removeTrack
  split
  · simp only [Playlist.rebuildShuffleIndices]
    split <;> simp [PermOK]
  · exact h

theorem permOK_shuffle (S : StdShuffle) (p : Playlist) : PermOK (p.shuffle S) := by
  simp only [PermOK, Playlist.shuffle, Playlist.rebuildShuffleIndices]
  exact S.perm _ _

theorem permOK_apply (S : StdShuffle) (p : Playlist) (op : Op) (h : PermOK p) :
    PermOK (op.apply S p) := by
  cases op with
  | addTrack f => exact permOK_addTrack p f h
  | addTracks fs => exact permOK_addTracks fs p h
  | removeTrack i => exact permOK_removeTrack p i h
  | clear => simp [Op.apply, PermOK, Playlist.clear]
  | next =>
    simp only [Op.apply, Playlist.next]
    split
    · exact h
    · exact h
  | previous =>
    simp only [Op.apply, Playlist.previous]
    split
    · exact h
    · exact h
  | jumpTo i =>
    simp only [Op.apply, Playlist.jumpTo]
    split
    · exact h
    · exact h
  | setShuffle b =>
    cases b with
    | false => exact h
    | true => exact permOK_shuffle S _
  | shuffle => exact permOK_shuffle S p

theorem permOK_run (S : StdShuffle) (ops : List Op) (p : Playlist) (h : PermOK p) :
    PermOK (run S ops p) := by
  induction ops generalizing p with
  | nil => exact h
  | cons op ops ih => exact ih (op.apply S p) (permOK_apply S p op h)

/-- C1: in every playlist reached from the constructor by a sequence of `addTrack`,
`addTracks`, `removeTrack`, `clear`, `next`, `previous`, `jumpTo`, `setShuffle` and
`shuffle`, whatever reordering `std::shuffle` performs, `shuffledIndices_` has
`size()` entries, every index below `size()` occurs in it exactly once, and it
holds nothing else. -/
theorem shuffledIndices_bijection (S : StdShuffle) (seed : Nat) (ops : List Op) :
    (run S ops (Playlist.new seed)).shuffledIndices_.length
        = (run S ops (Playlist.new seed)).size
      ∧ (∀ i, i < (run S ops (Playlist.new seed)).size →
          (run S ops (Playlist.new seed)).shuffledIndices_.count i = 1)
      ∧ (∀ i, i ∈ (run S ops (Playlist.new seed)).shuffledIndices_ →
          i < (run S ops (Playlist.new seed)).size) := by
  have h : PermOK (run S ops (Playlist.new seed)) := permOK_run S ops _ (permOK_new seed)
  unfold PermOK at h
  refine ⟨?_, ?_, ?_⟩
  · rw [h.length_eq, List.length_range]; rfl
  · intro i hi
    rw [h.count_eq]
    exact List.count_eq_one_of_mem (List.nodup_range _) (List.mem_range.mpr hi)
  · intro i hi
    exact List.mem_range.mp (h.subset hi)

/-! ## Cursor arithmetic of `next()` and `previous()` -/

/-- Value of the cursor after `next()` on a non-empty list of at most `INT_MAX`
tracks. -/
theorem next_cursor (p : Playlist) (hne : p.tracks_ ≠ []) (hn : p.tracks_.length ≤ INT_MAX)
    (hc : -1 ≤ p.currentIndex_) (hc2 : p.currentIndex_ < (p.tracks_.length : Int)) :
    p.next.2.currentIndex_ = (p.currentIndex_ + 1) % (p.tracks_.length : Int) := by
  have hlen : 0 < p.tracks_.length := List.length_pos.mpr hne
  have hI := INT_MAX_eq
  have hS := SIZE_MOD_eq
  obtain ⟨k, hk⟩ : ∃ k : Nat, p.currentIndex_ + 1 = (k : Int) :=
    ⟨(p.currentIndex_ + 1).toNat, by omega⟩
  have hkn : k ≤ p.tracks_.length := by omega
  simp only [Playlist.next, List.isEmpty_iff, hne, if_false, hk]
  rw [toSizeT_natCast k (by omega),
    toInt_of_le _ (le_trans (le_of_lt (Nat.mod_lt _ hlen)) hn)]
  exact Int.natCast_mod k _

/-- Value of the cursor after `previous()` on a non-empty list of at most `INT_MAX`
tracks: the unsigned sum wraps around `2^64` when the cursor is `0`. -/
theorem previous_cursor (p : Playlist) (hne : p.tracks_ ≠ [])
    (hn : p.tracks_.length ≤ INT_MAX)
    (hc : -1 ≤ p.currentIndex_) (hc2 : p.currentIndex_ < (p.tracks_.length : Int)) :
    p.previous.2.currentIndex_ = (p.currentIndex_ - 1) % (p.tracks_.length : Int) := by
  have hlen : 0 < p.tracks_.length := List.length_pos.mpr hne
  have hI := INT_MAX_eq
  have hS := SIZE_MOD_eq
  simp only [Playlist.previous, List.isEmpty_iff, hne, if_false]
  rw [toInt_of_le _ (le_trans (le_of_lt (Nat.mod_lt _ hlen)) hn)]
  generalize p.tracks_.length = n at *
  generalize p.currentIndex_ = c at *
  by_cases h1 : 1 ≤ c
  · obtain ⟨k, hk⟩ : ∃ k : Nat, c - 1 = (k : Int) := ⟨(c - 1).toNat, by omega⟩
    rw [hk, toSizeT_natCast k (by omega), Nat.mod_eq_of_lt (by omega : k + n < SIZE_MOD),
      Nat.add_mod_right]
    exact Int.natCast_mod k _
  · by_cases h0 : c = 0
    · subst h0
      have e1 : (SIZE_MOD - 1 + n) % SIZE_MOD = n - 1 := by rw [SIZE_MOD_eq]; omega
      have e2 : ((0 : Int) - 1) % (n : Int) = ((n - 1 : Nat) : Int) := by
        rw [← Int.add_emod_self, Int.emod_eq_of_lt (by omega) (by omega)]
        omega
      rw [show ((0 : Int) - 1) = -1 from rfl] at *
      rw [toSizeT_neg_one, e1, Nat.mod_eq_of_lt (by omega), e2]
    · have hm : c = -1 := by omega
      subst hm
      rw [show ((-1 : Int) - 1) = -2 from rfl, toSizeT_neg_two]
      by_cases hn1 : n = 1
      · subst hn1
        simp
      · have e1 : (SIZE_MOD - 2 + n) % SIZE_MOD = n - 2 := by rw [SIZE_MOD_eq]; omega
        have e2 : (-2 : Int) % (n : Int) = ((n - 2 : Nat) : Int) := by
          rw [← Int.add_emod_self, Int.emod_eq_of_lt (by omega) (by omega)]
          omega
        rw [e1, Nat.mod_eq_of_lt (by omega), e2]

/-! ## The cursor invariant -/

theorem cursorOK_new (seed : Nat) : CursorOK (Playlist.new seed) := by
  simp [CursorOK, Playlist.new]

theorem cursorOK_addTrack (p : Playlist) (f : String) (h : CursorOK p) :
    CursorOK (p.addTrack f) := by
  obtain ⟨h1, h2⟩ := h
  refine ⟨fun he => ?_, fun _ => ?_⟩
  · simp [Playlist.addTrack] at he
  · simp only [Playlist.addTrack, List.length_append, List.length_singleton]
    by_cases he : p.tracks_ = []
    · rw [h1 he, he]
      simp
    · obtain ⟨h3, h4⟩ := h2 he
      rw [if_neg (by omega)]
      refine ⟨h3, ?_⟩
      push_cast
      omega

theorem cursorOK_addTracks (fs : List String) (p : Playlist) (h : CursorOK p) :
    CursorOK (p.addTracks fs) := by
  induction fs generalizing p with
  | nil => exact h
  | cons f fs ih => exact ih (p.addTrack f) (cursorOK_addTrack p f h)

/-- The cursor after `removeTrack(index)` with an index in range. -/
theorem removeTrack_cursor (p : Playlist) (i : Nat) (hi : i < p.tracks_.length)
    (hn : p.tracks_.length ≤ INT_MAX) :
    (p.removeTrack i).currentIndex_ =
      if p.currentIndex_ ≥ ((p.tracks_.length - 1 : Nat) : Int) then
        (if p.tracks_.length = 1 then -1 else ((p.tracks_.length - 2 : Nat) : Int))
      else p.currentIndex_ := by
  have hI := INT_MAX_eq
  have hlen : (p.tracks_.eraseIdx i).length = p.tracks_.length - 1 :=
    List.length_eraseIdx_of_lt hi
  simp only [Playlist.removeTrack, if_pos hi, Playlist.rebuildShuffleIndices, hlen,
    toInt_of_le _ (by omega : p.tracks_.length - 1 ≤ INT_MAX)]
  split
  · simp only [List.isEmpty_iff, ← List.length_eq_zero, hlen]
    by_cases h1 : p.tracks_.length = 1
    · simp [h1, toSizeT_neg_one]
      decide
    · rw [if_neg (by omega), if_neg h1, toInt_of_le _ (by omega)]
      congr 1
  · rfl

theorem removeTrack_tracks (p : Playlist) (i : Nat) :
    (p.removeTrack i).tracks_ = p.tracks_.eraseIdx i := by
  unfold Playlist.removeTrack
  split
  · simp only [Playlist.rebuildShuffleIndices]
    split <;> rfl
  · rename_i h
    exact (List.eraseIdx_of_length_le (not_lt.mp h)).symm

theorem cursorOK_removeTrack (p : Playlist) (i : Nat) (hn : p.tracks_.length ≤ INT_MAX)
    (h : CursorOK p) : CursorOK (p.removeTrack i) := by
  by_cases hi : i < p.tracks_.length
  · have hne : p.tracks_ ≠ [] := by
      intro he; rw [he] at hi; simp at hi
    obtain ⟨h3, h4⟩ := h.2 hne
    have hlen : (p.tracks_.eraseIdx i).length = p.tracks_.length - 1 :=
      List.length_eraseIdx_of_lt hi
    unfold CursorOK
    rw [removeTrack_cursor p i hi hn, removeTrack_tracks, ← List.length_eq_zero,
      Ne, ← List.length_eq_zero, hlen]
    constructor
    · intro h0
      rw [if_pos (by omega), if_pos (by omega)]
    · intro h0
      split
      · rw [if_neg (by omega)]
        omega
      · omega
  · simp only [Playlist.removeTrack, if_neg hi]
    exact h

theorem cursorOK_next (p : Playlist) (hn : p.tracks_.length ≤ INT_MAX) (h : CursorOK p) :
    CursorOK p.next.2 := by
  by_cases hne : p.tracks_ = []
  · simp only [Playlist.next, hne, List.isEmpty_nil, if_true]
    exact h
  · obtain ⟨h3, h4⟩ := h.2 hne
    have hpos : (0 : Int) < (p.tracks_.length : Int) := by
      exact_mod_cast List.length_pos.mpr hne
    have ht : p.next.2.tracks_ = p.tracks_ := by
      simp [Playlist.next, hne]
    unfold CursorOK
    rw [next_cursor p hne hn (by omega) h4, ht]
    exact ⟨fun he => absurd he hne,
      fun _ => ⟨Int.emod_nonneg _ (by omega), Int.emod_lt_of_pos _ hpos⟩⟩

theorem cursorOK_previous (p : Playlist) (hn : p.tracks_.length ≤ INT_MAX)
    (h : CursorOK p) : CursorOK p.previous.2 := by
  by_cases hne : p.tracks_ = []
  · simp only [Playlist.previous, hne, List.isEmpty_nil, if_true]
    exact h
  · obtain ⟨h3, h4⟩ := h.2 hne
    have hpos : (0 : Int) < (p.tracks_.length : Int) := by
      exact_mod_cast List.length_pos.mpr hne
    have ht : p.previous.2.tracks_ = p.tracks_ := by
      simp [Playlist.previous, hne]
    unfold CursorOK
    rw [previous_cursor p hne hn (by omega) h4, ht]
    exact ⟨fun he => absurd he hne,
      fun _ => ⟨Int.emod_nonneg _ (by omega), Int.emod_lt_of_pos _ hpos⟩⟩

theorem cursorOK_jumpTo (p : Playlist) (i : Nat) (hn : p.tracks_.length ≤ INT_MAX)
    (h : CursorOK p) : CursorOK (p.jumpTo i).2 := by
  by_cases hi : i < p.tracks_.length
  · have hne : p.tracks_ ≠ [] := by
      intro he; rw [he] at hi; simp at hi
    simp only [Playlist.jumpTo, if_pos hi, CursorOK, toInt_of_le i (by omega)]
    exact ⟨fun he => absurd he hne, fun _ => ⟨Int.natCast_nonneg i, by exact_mod_cast hi⟩⟩
  · simp only [Playlist.jumpTo, if_neg hi]
    exact h

theorem cursorOK_shuffle (S : StdShuffle) (p : Playlist) (h : CursorOK p) :
    CursorOK (p.shuffle S) := h

theorem cursorOK_apply (S : StdShuffle) (p : Playlist) (op : Op)
    (hn : p.tracks_.length ≤ INT_MAX) (h : CursorOK p) : CursorOK (op.apply S p) := by
  cases op with
  | addTrack f => exact cursorOK_addTrack p f h
  | addTracks fs => exact cursorOK_addTracks fs p h
  | removeTrack i => exact cursorOK_removeTrack p i hn h
  | clear => simp [Op.apply, CursorOK, Playlist.clear]
  | next => exact cursorOK_next p hn h
  | previous => exact cursorOK_previous p hn h
  | jumpTo i => exact cursorOK_jumpTo p i hn h
  | setShuffle b =>
    cases b with
    | false => exact h
    | true => exact h
  | shuffle => exact h

theorem cursorOK_run (S : StdShuffle) (ops : List Op) (p : Playlist)
    (hr : withinIntRange S ops p = true) (h : CursorOK p) :
    CursorOK (run S ops p) ∧ (run S ops p).tracks_.length ≤ INT_MAX := by
  induction ops generalizing p with
  | nil =>
    simp only [withinIntRange, decide_eq_true_eq] at hr
    exact ⟨h, hr⟩
  | cons op ops ih =>
    simp only [withinIntRange, Bool.and_eq_true, decide_eq_true_eq] at hr
    exact ih (op.apply S p) hr.2 (cursorOK_apply S p op hr.1 h)

/-! ## Lookup of the current track -/

/-- The result of `getCurrentTrack()` under the two invariants. -/
theorem getCurrentTrack_of_invariants (p : Playlist) (hn : p.tracks_.length ≤ INT_MAX)
    (hc : CursorOK p) (hp : PermOK p) :
    (p.getCurrentTrack = TrackPtr.nullptr ↔ p.tracks_ = []) ∧
      (p.tracks_ ≠ [] →
        (p.shuffleMode_ = false →
          ∃ t, p.tracks_[p.currentIndex_.toNat]? = some t ∧
            p.getCurrentTrack = TrackPtr.track t) ∧
        (p.shuffleMode_ = true →
          ∃ j t, p.shuffledIndices_[p.currentIndex_.toNat]? = some j ∧
            p.tracks_[j]? = some t ∧ p.getCurrentTrack = TrackPtr.track t)) := by
  have hI := INT_MAX_eq
  have hS := SIZE_MOD_eq
  have key : p.tracks_ ≠ [] →
      (p.shuffleMode_ = false →
          ∃ t, p.tracks_[p.currentIndex_.toNat]? = some t ∧
            p.getCurrentTrack = TrackPtr.track t) ∧
        (p.shuffleMode_ = true →
          ∃ j t, p.shuffledIndices_[p.currentIndex_.toNat]? = some j ∧
            p.tracks_[j]? = some t ∧ p.getCurrentTrack = TrackPtr.track t) := by
    intro hne
    obtain ⟨h0, h1⟩ := hc.2 hne
    have hcond : 0 ≤ p.currentIndex_ ∧ p.currentIndex_ < toInt p.tracks_.length := by
      rw [toInt_of_le _ hn]; exact ⟨h0, h1⟩
    have hk : p.currentIndex_.toNat < p.tracks_.length := by omega
    have hsz : toSizeT p.currentIndex_ = p.currentIndex_.toNat :=
      toSizeT_of_nonneg _ h0 (by omega)
    constructor
    · intro hs
      refine ⟨p.tracks_[p.currentIndex_.toNat], List.getElem?_eq_getElem hk, ?_⟩
      simp only [Playlist.getCurrentTrack, if_pos hcond, hs, hsz, Bool.false_eq_true, if_false]
      rw [toInt_of_le _ (by omega), toSizeT_natCast _ (by omega), List.getElem?_eq_getElem hk]
    · intro hs
      have hlen : p.shuffledIndices_.length = p.tracks_.length := by
        rw [hp.length_eq, List.length_range]
      have hk2 : p.currentIndex_.toNat < p.shuffledIndices_.length := by omega
      have hj : p.shuffledIndices_[p.currentIndex_.toNat] < p.tracks_.length :=
        List.mem_range.mp (hp.subset (List.getElem_mem hk2))
      refine ⟨p.shuffledIndices_[p.currentIndex_.toNat], p.tracks_[p.shuffledIndices_[p.currentIndex_.toNat]],
        List.getElem?_eq_getElem hk2, List.getElem?_eq_getElem hj, ?_⟩
      simp only [Playlist.getCurrentTrack, if_pos hcond, hs, hsz, if_true,
        List.getElem?_eq_getElem hk2]
      rw [toInt_of_le _ (by omega), toSizeT_natCast _ (by omega), List.getElem?_eq_getElem hj]
  refine ⟨⟨fun hnull => ?_, fun he => ?_⟩, key⟩
  · by_contra hne
    obtain ⟨k1, k2⟩ := key hne
    cases hs : p.shuffleMode_ with
    | false =>
      obtain ⟨t, _, ht⟩ := k1 hs
      rw [hnull] at ht
      exact TrackPtr.noConfusion ht
    | true =>
      obtain ⟨j, t, _, _, ht⟩ := k2 hs
      rw [hnull] at ht
      exact TrackPtr.noConfusion ht
  · have hcur := hc.1 he
    simp [Playlist.getCurrentTrack, hcur]

/-- Both invariants, and the size bound, hold in every reachable playlist. -/
theorem invariants_of_reachable (S : StdShuffle) (p : Playlist) (h : Reachable S p) :
    CursorOK p ∧ PermOK p ∧ p.tracks_.length ≤ INT_MAX := by
  obtain ⟨seed, ops, hr, rfl⟩ := h
  obtain ⟨h1, h2⟩ := cursorOK_run S ops _ hr (cursorOK_new seed)
  exact ⟨h1, permOK_run S ops _ (permOK_new seed), h2⟩

/-! ## Properties of the playlist -/

/-- C2: in every playlist reached from the constructor by `addTrack`, `removeTrack`,
`clear`, `next`, `previous`, `jumpTo` and `setShuffle` (and `addTracks`, `shuffle`),
with at most `INT_MAX` tracks held along the way, the cursor is `-1` exactly when
the track list is empty, and otherwise `0 <= currentIndex_ < size()`. -/
theorem cursor_valid_of_reachable (S : StdShuffle) (p : Playlist) (h : Reachable S p) :
    (p.currentIndex_ = -1 ↔ p.tracks_ = []) ∧
      (p.tracks_ ≠ [] → 0 ≤ p.currentIndex_ ∧ p.currentIndex_ < (p.size : Int)) := by
  obtain ⟨seed, ops, hr, rfl⟩ := h
  obtain ⟨⟨h1, h2⟩, _⟩ := cursorOK_run S ops _ hr (cursorOK_new seed)
  refine ⟨⟨fun hc => ?_, h1⟩, h2⟩
  by_contra hne
  have := (h2 hne).1
  omega

/-- Witness for C2 at the sample playlist. -/
theorem cursor_valid_of_reachable_witness :
    Reachable rotateShuffle samplePlaylist ∧
      ((samplePlaylist.currentIndex_ = -1 ↔ samplePlaylist.tracks_ = []) ∧
        (samplePlaylist.tracks_ ≠ [] →
          0 ≤ samplePlaylist.currentIndex_ ∧
            samplePlaylist.currentIndex_ < (samplePlaylist.size : Int))) :=
  ⟨⟨2, sampleOps, by decide, rfl⟩,
    cursor_valid_of_reachable rotateShuffle samplePlaylist ⟨2, sampleOps, by decide, rfl⟩⟩

/-- C3: in every reachable playlist `getCurrentTrack()` returns the null pointer if
and only if the list is empty; otherwise it returns `tracks_[currentIndex_]` when
shuffle mode is off and `tracks_[shuffledIndices_[currentIndex_]]` when it is on,
every vector access being in bounds. -/
theorem getCurrentTrack_of_reachable (S : StdShuffle) (p : Playlist) (h : Reachable S p) :
    (p.getCurrentTrack = TrackPtr.nullptr ↔ p.tracks_ = []) ∧
      (p.tracks_ ≠ [] →
        (p.shuffleMode_ = false →
          ∃ t, p.tracks_[p.currentIndex_.toNat]? = some t ∧
            p.getCurrentTrack = TrackPtr.track t) ∧
        (p.shuffleMode_ = true →
          ∃ j t, p.shuffledIndices_[p.currentIndex_.toNat]? = some j ∧
            p.tracks_[j]? = some t ∧ p.getCurrentTrack = TrackPtr.track t)) := by
  obtain ⟨hc, hp, hn⟩ := invariants_of_reachable S p h
  exact getCurrentTrack_of_invariants p hn hc hp

/-- Witness for C3 at the sample playlist. -/
theorem getCurrentTrack_of_reachable_witness :
    Reachable rotateShuffle samplePlaylist ∧
    ((samplePlaylist.getCurrentTrack = TrackPtr.nullptr ↔ samplePlaylist.tracks_ = []) ∧
      (samplePlaylist.tracks_ ≠ [] →
        (samplePlaylist.shuffleMode_ = false →
          ∃ t, samplePlaylist.tracks_[samplePlaylist.currentIndex_.toNat]? = some t ∧
            samplePlaylist.getCurrentTrack = TrackPtr.track t) ∧
        (samplePlaylist.shuffleMode_ = true →
          ∃ j t, samplePlaylist.shuffledIndices_[samplePlaylist.currentIndex_.toNat]? = some j ∧
            samplePlaylist.tracks_[j]? = some t ∧
            samplePlaylist.getCurrentTrack = TrackPtr.track t))) :=
  ⟨⟨2, sampleOps, by decide, rfl⟩,
    getCurrentTrack_of_reachable rotateShuffle samplePlaylist ⟨2, sampleOps, by decide, rfl⟩⟩

/-- C4: `next()` and `previous()` return `false` exactly on an empty list and then
change nothing; on a list of `n > 0` tracks with a valid cursor `c` they return
`true`, set the cursor to `(c + 1) mod n` and `(c - 1) mod n` (so `previous()` at
cursor `0` gives `n - 1`), and leave every other member as it was. -/
theorem next_previous_wraparound (p : Playlist) (hn : p.size ≤ INT_MAX) (hc : CursorOK p) :
    (p.next.1 = false ↔ p.tracks_ = []) ∧ (p.previous.1 = false ↔ p.tracks_ = []) ∧
      (p.tracks_ = [] → p.next = (false, p) ∧ p.previous = (false, p)) ∧
      (p.tracks_ ≠ [] →
        p.next = (true, { p with currentIndex_ := (p.currentIndex_ + 1) % (p.size : Int) }) ∧
        p.previous =
          (true, { p with currentIndex_ := (p.currentIndex_ - 1) % (p.size : Int) }) ∧
        (p.currentIndex_ = 0 → p.previous.2.currentIndex_ = (p.size : Int) - 1)) := by
  simp only [Playlist.size] at hn ⊢
  have hE : p.tracks_ = [] → p.next = (false, p) ∧ p.previous = (false, p) := by
    intro he
    simp [Playlist.next, Playlist.previous, he]
  have hN : p.tracks_ ≠ [] →
      p.next = (true, { p with currentIndex_ := (p.currentIndex_ + 1) % (p.tracks_.length : Int) }) ∧
      p.previous =
        (true, { p with currentIndex_ := (p.currentIndex_ - 1) % (p.tracks_.length : Int) }) ∧
      (p.currentIndex_ = 0 → p.previous.2.currentIndex_ = (p.tracks_.length : Int) - 1) := by
    intro hne
    obtain ⟨h0, h1⟩ := hc.2 hne
    have e1 := next_cursor p hne hn (by omega) h1
    have e2 := previous_cursor p hne hn (by omega) h1
    refine ⟨?_, ?_, ?_⟩
    · rw [← e1]
      simp [Playlist.next, hne]
    · rw [← e2]
      simp [Playlist.previous, hne]
    · intro hz
      rw [e2, hz, ← Int.add_emod_self, Int.emod_eq_of_lt (by omega) (by omega)]
      omega
  refine ⟨⟨fun hf => ?_, fun he => by rw [(hE he).1]⟩,
    ⟨fun hf => ?_, fun he => by rw [(hE he).2]⟩, hE, hN⟩
  · by_contra hne
    rw [(hN hne).1] at hf
    exact Bool.noConfusion hf
  · by_contra hne
    rw [(hN hne).2.1] at hf
    exact Bool.noConfusion hf

/-- The sample playlist has a valid cursor. -/
theorem cursorOK_sample : CursorOK samplePlaylist := by
  unfold CursorOK
  decide

/-- Witness for C4 at the sample playlist (three tracks, cursor at the last one). -/
theorem next_previous_wraparound_witness :
    samplePlaylist.size ≤ INT_MAX ∧ CursorOK samplePlaylist ∧
    ((samplePlaylist.next.1 = false ↔ samplePlaylist.tracks_ = []) ∧
      (samplePlaylist.previous.1 = false ↔ samplePlaylist.tracks_ = []) ∧
      (samplePlaylist.tracks_ = [] →
        samplePlaylist.next = (false, samplePlaylist) ∧
          samplePlaylist.previous = (false, samplePlaylist)) ∧
      (samplePlaylist.tracks_ ≠ [] →
        samplePlaylist.next =
          (true, { samplePlaylist with
            currentIndex_ := (samplePlaylist.currentIndex_ + 1) % (samplePlaylist.size : Int) }) ∧
        samplePlaylist.previous =
          (true, { samplePlaylist with
            currentIndex_ := (samplePlaylist.currentIndex_ - 1) % (samplePlaylist.size : Int) }) ∧
        (samplePlaylist.currentIndex_ = 0 →
          samplePlaylist.previous.2.currentIndex_ = (samplePlaylist.size : Int) - 1))) :=
  ⟨by decide, cursorOK_sample,
    next_previous_wraparound samplePlaylist (by decide) cursorOK_sample⟩

/-- C5: on a non-empty playlist whose cursor is a valid index, `next()` followed by
`previous()` gives back the cursor, and the whole playlist, it started from; when the
cursor starts at the last index, `next()` wraps it to `0` in between. -/
theorem next_then_previous_restores (p : Playlist) (hne : p.tracks_ ≠ [])
    (hn : p.size ≤ INT_MAX) (h0 : 0 ≤ p.currentIndex_)
    (h1 : p.currentIndex_ < (p.size : Int)) :
    p.next.2.previous.2.currentIndex_ = p.currentIndex_ ∧ p.next.2.previous.2 = p ∧
      (p.currentIndex_ = (p.size : Int) - 1 → p.next.2.currentIndex_ = 0) := by
  simp only [Playlist.size] at hn h1 ⊢
  have hpos : (0 : Int) < (p.tracks_.length : Int) := by
    exact_mod_cast List.length_pos.mpr hne
  have e1 := next_cursor p hne hn (by omega) h1
  have ht : p.next.2.tracks_ = p.tracks_ := by simp [Playlist.next, hne]
  have hwrap : p.currentIndex_ = (p.tracks_.length : Int) - 1 → p.next.2.currentIndex_ = 0 := by
    intro hl
    rw [e1, hl]
    simp
  have hb1 : 0 ≤ p.next.2.currentIndex_ := by
    rw [e1]; exact Int.emod_nonneg _ (by omega)
  have hb2 : p.next.2.currentIndex_ < (p.next.2.tracks_.length : Int) := by
    rw [e1, ht]; exact Int.emod_lt_of_pos _ hpos
  have e2 := previous_cursor p.next.2 (by rw [ht]; exact hne) (by rw [ht]; exact hn)
    (by omega) hb2
  have hcur : p.next.2.previous.2.currentIndex_ = p.currentIndex_ := by
    rw [e2, ht]
    by_cases hl : p.currentIndex_ = (p.tracks_.length : Int) - 1
    · rw [hwrap hl, ← Int.add_emod_self, Int.emod_eq_of_lt (by omega) (by omega)]
      omega
    · have e3 : (p.currentIndex_ + 1) % (p.tracks_.length : Int) = p.currentIndex_ + 1 :=
        Int.emod_eq_of_lt (by omega) (by omega)
      rw [e1, e3, Int.add_sub_cancel, Int.emod_eq_of_lt h0 h1]
  refine ⟨hcur, ?_, hwrap⟩
  have hs : p.next.2.previous.2 = { p with currentIndex_ := p.next.2.previous.2.currentIndex_ } := by
    simp [Playlist.next, Playlist.previous, hne]
  rw [hs, hcur]

/-- Witness for C5 at the sample playlist, whose cursor is at the last index. -/
theorem next_then_previous_restores_witness :
    samplePlaylist.tracks_ ≠ [] ∧ samplePlaylist.size ≤ INT_MAX ∧
    0 ≤ samplePlaylist.currentIndex_ ∧
    samplePlaylist.currentIndex_ < (samplePlaylist.size : Int) ∧
    (samplePlaylist.next.2.previous.2.currentIndex_ = samplePlaylist.currentIndex_ ∧
      samplePlaylist.next.2.previous.2 = samplePlaylist ∧
      (samplePlaylist.currentIndex_ = (samplePlaylist.size : Int) - 1 →
        samplePlaylist.next.2.currentIndex_ = 0)) :=
  ⟨by decide, by decide, by decide, by decide,
    next_then_previous_restores samplePlaylist (by decide) (by decide) (by decide)
      (by decide)⟩

/-- C6: `jumpTo(i)` with `i < size()` returns `true` and sets the cursor to `i`,
changing nothing else; with `i >= size()` it returns `false` and changes nothing. -/
theorem jumpTo_in_and_out_of_range (p : Playlist) (i : Nat) (hn : p.size ≤ INT_MAX) :
    (i < p.size → p.jumpTo i = (true, { p with currentIndex_ := (i : Int) })) ∧
      (p.size ≤ i → p.jumpTo i = (false, p)) := by
  simp only [Playlist.size] at hn ⊢
  constructor
  · intro hi
    simp only [Playlist.jumpTo, if_pos hi, toInt_of_le i (by omega)]
  · intro hi
    simp only [Playlist.jumpTo, if_neg (not_lt.mpr hi)]

/-- Witness for C6 at the sample playlist and the index `1`. -/
theorem jumpTo_in_and_out_of_range_witness :
    samplePlaylist.size ≤ INT_MAX ∧
    ((1 < samplePlaylist.size →
        samplePlaylist.jumpTo 1 = (true, { samplePlaylist with currentIndex_ := ((1 : Nat) : Int) })) ∧
      (samplePlaylist.size ≤ 1 → samplePlaylist.jumpTo 1 = (false, samplePlaylist))) :=
  ⟨by decide, jumpTo_in_and_out_of_range samplePlaylist 1 (by decide)⟩

/-- C7: on a playlist of `n` tracks with a valid cursor `c`, `removeTrack(index)`
with `index >= n` changes nothing; with `index < n` the track list becomes the old
one without the element at `index` (the others in their order), of size `n - 1`,
the shuffle flag is kept, and the cursor becomes `-1` if the list is now empty,
`n - 2` if `c` was beyond the new last index, and stays `c` otherwise. -/
theorem removeTrack_effect (p : Playlist) (index : Nat) (hn : p.size ≤ INT_MAX)
    (hc : CursorOK p) :
    (p.size ≤ index → p.removeTrack index = p) ∧
      (index < p.size →
        (p.removeTrack index).tracks_ = p.tracks_.take index ++ p.tracks_.drop (index + 1) ∧
        (p.removeTrack index).size = p.size - 1 ∧
        (p.removeTrack index).shuffleMode_ = p.shuffleMode_ ∧
        (p.removeTrack index).currentIndex_ =
          if (p.removeTrack index).tracks_ = [] then -1
          else if p.currentIndex_ > (p.size : Int) - 2 then (p.size : Int) - 2
          else p.currentIndex_) := by
  simp only [Playlist.size] at hn ⊢
  constructor
  · intro hi
    simp only [Playlist.removeTrack, if_neg (not_lt.mpr hi)]
  · intro hi
    have hlen : (p.tracks_.eraseIdx index).length = p.tracks_.length - 1 :=
      List.length_eraseIdx_of_lt hi
    refine ⟨?_, ?_, ?_, ?_⟩
    · rw [removeTrack_tracks, List.eraseIdx_eq_take_drop_succ]
    · rw [removeTrack_tracks, hlen]
    · unfold Playlist.removeTrack
      rw [if_pos hi]
      simp only [Playlist.rebuildShuffleIndices]
      split <;> rfl
    · have hne : p.tracks_ ≠ [] := by
        intro he; rw [he] at hi; simp at hi
      obtain ⟨h0, h1⟩ := hc.2 hne
      have hemp : p.tracks_.eraseIdx index = [] ↔ p.tracks_.length = 1 := by
        rw [← List.length_eq_zero, hlen]
        omega
      rw [removeTrack_cursor p index hi hn, removeTrack_tracks]
      by_cases hone : p.tracks_.length = 1
      · rw [if_pos (by omega), if_pos hone, if_pos (hemp.mpr hone)]
      · rw [if_neg (fun h => hone (hemp.mp h))]
        by_cases hlast : p.currentIndex_ ≥ ((p.tracks_.length - 1 : Nat) : Int)
        · rw [if_pos hlast, if_neg hone, if_pos (by omega)]
          omega
        · rw [if_neg hlast, if_neg (by omega)]

/-- Witness for C7 at the sample playlist and the index `1`. -/
theorem removeTrack_effect_witness :
    samplePlaylist.size ≤ INT_MAX ∧ CursorOK samplePlaylist ∧
    ((samplePlaylist.size ≤ 1 → samplePlaylist.removeTrack 1 = samplePlaylist) ∧
      (1 < samplePlaylist.size →
        (samplePlaylist.removeTrack 1).tracks_ =
          samplePlaylist.tracks_.take 1 ++ samplePlaylist.tracks_.drop (1 + 1) ∧
        (samplePlaylist.removeTrack 1).size = samplePlaylist.size - 1 ∧
        (samplePlaylist.removeTrack 1).shuffleMode_ = samplePlaylist.shuffleMode_ ∧
        (samplePlaylist.removeTrack 1).currentIndex_ =
          if (samplePlaylist.removeTrack 1).tracks_ = [] then -1
          else if samplePlaylist.currentIndex_ > (samplePlaylist.size : Int) - 2 then
            (samplePlaylist.size : Int) - 2
          else samplePlaylist.currentIndex_)) :=
  ⟨by decide, cursorOK_sample, removeTrack_effect samplePlaylist 1 (by decide) cursorOK_sample⟩

/-- For any `std::shuffle`, `removeTrack(index)` in shuffle mode agrees with the
wording of the specification exactly when shuffling the rebuilt vector happens to
change neither the vector nor the generator state. -/
theorem removeTrack_eq_spec_iff (S : StdShuffle) (p : Playlist) (index : Nat)
    (hi : index < p.size) (hs : p.shuffleMode_ = true) :
    ((p.removeTrack index).shuffledIndices_, (p.removeTrack index).rng_)
        = specRemoveTrackShuffle S p index ↔
      S.run p.rng_ (List.range (p.size - 1)) = (List.range (p.size - 1), p.rng_) := by
  simp only [Playlist.size] at hi ⊢
  have hlen : (p.tracks_.eraseIdx index).length = p.tracks_.length - 1 :=
    List.length_eraseIdx_of_lt hi
  have e1 : (p.removeTrack index).shuffledIndices_ = List.range (p.tracks_.length - 1) := by
    unfold Playlist.removeTrack
    rw [if_pos hi]
    simp only [Playlist.rebuildShuffleIndices, hlen]
    split <;> rfl
  have e2 : (p.removeTrack index).rng_ = p.rng_ := by
    unfold Playlist.removeTrack
    rw [if_pos hi]
    simp only [Playlist.rebuildShuffleIndices]
    split <;> rfl
  rw [e1, e2]
  simp only [specRemoveTrackShuffle, hs, if_true, Playlist.shuffle,
    Playlist.rebuildShuffleIndices, hlen]
  exact eq_comm

/-- C8, as the specification words it, fails: on the playlist `shuffledSample` (three
tracks, shuffle mode on) `removeTrack(0)` leaves the permutation `[0, 1]` and the
generator state untouched, neither of which is what erasing the track and running
the step of `setShuffle(true)` gives. -/
theorem removeTrack_not_reshuffled :
    shuffledSample.shuffleMode_ = true ∧ 0 < shuffledSample.size ∧
      (shuffledSample.removeTrack 0).shuffledIndices_ = [0, 1] ∧
      (shuffledSample.removeTrack 0).shuffledIndices_ ≠
        (specRemoveTrackShuffle rotateShuffle shuffledSample 0).1 ∧
      (shuffledSample.removeTrack 0).rng_ ≠
        (specRemoveTrackShuffle rotateShuffle shuffledSample 0).2 := by
  decide

/-- C8, amended: a `removeTrack(index)` with the index in range leaves the identity
order `0, …, size() - 1` over the remaining tracks, whether shuffle mode is on or
off, and leaves the generator state and the shuffle flag as they were. -/
theorem removeTrack_rebuilds_identity (p : Playlist) (index : Nat) (hi : index < p.size) :
    (p.removeTrack index).shuffledIndices_ = List.range (p.size - 1) ∧
      (p.removeTrack index).shuffledIndices_ = List.range (p.removeTrack index).size ∧
      (p.removeTrack index).rng_ = p.rng_ ∧
      (p.removeTrack index).shuffleMode_ = p.shuffleMode_ := by
  simp only [Playlist.size] at hi ⊢
  have hlen : (p.tracks_.eraseIdx index).length = p.tracks_.length - 1 :=
    List.length_eraseIdx_of_lt hi
  rw [removeTrack_tracks, hlen]
  unfold Playlist.removeTrack
  rw [if_pos hi]
  simp only [Playlist.rebuildShuffleIndices, hlen]
  split <;> exact ⟨rfl, rfl, rfl, rfl⟩

/-- Witness for the amended C8 at `shuffledSample`, which is in shuffle mode. -/
theorem removeTrack_rebuilds_identity_witness :
    0 < shuffledSample.size ∧
    ((shuffledSample.removeTrack 0).shuffledIndices_ = List.range (shuffledSample.size - 1) ∧
      (shuffledSample.removeTrack 0).shuffledIndices_ =
        List.range (shuffledSample.removeTrack 0).size ∧
      (shuffledSample.removeTrack 0).rng_ = shuffledSample.rng_ ∧
      (shuffledSample.removeTrack 0).shuffleMode_ = shuffledSample.shuffleMode_) :=
  ⟨by decide, removeTrack_rebuilds_identity shuffledSample 0 (by decide)⟩

/-- C9: `addTrack(ref)` on a playlist of `n` tracks appends the track built from
`ref` to the list (size `n + 1`), sets the cursor to `0` if the list was empty and
keeps it otherwise, keeps the shuffle flag and the generator state, and appends the
new index `n` to the permutation, in either shuffle mode. -/
theorem addTrack_effect (p : Playlist) (ref : String) (hc : CursorOK p) :
    (p.addTrack ref).tracks_ = p.tracks_ ++ [TrackInfo.ofPath ref] ∧
      (TrackInfo.ofPath ref).filepath = ref ∧
      (p.addTrack ref).size = p.size + 1 ∧
      (p.addTrack ref).currentIndex_ = (if p.tracks_ = [] then 0 else p.currentIndex_) ∧
      (p.addTrack ref).shuffleMode_ = p.shuffleMode_ ∧
      (p.addTrack ref).shuffledIndices_ = p.shuffledIndices_ ++ [p.size] ∧
      (p.addTrack ref).rng_ = p.rng_ := by
  refine ⟨rfl, rfl, ?_, ?_, rfl, ?_, rfl⟩
  · simp [Playlist.addTrack, Playlist.size]
  · simp only [Playlist.addTrack]
    by_cases he : p.tracks_ = []
    · rw [if_pos he, hc.1 he]
      rfl
    · rw [if_neg he, if_neg (by have := (hc.2 he).1; omega)]
  · simp [Playlist.addTrack, Playlist.size]

/-- Witness for C9 at the sample playlist, which is in shuffle mode. -/
theorem addTrack_effect_witness :
    CursorOK samplePlaylist ∧
    ((samplePlaylist.addTrack "e.mp3").tracks_ =
        samplePlaylist.tracks_ ++ [TrackInfo.ofPath "e.mp3"] ∧
      (TrackInfo.ofPath "e.mp3").filepath = "e.mp3" ∧
      (samplePlaylist.addTrack "e.mp3").size = samplePlaylist.size + 1 ∧
      (samplePlaylist.addTrack "e.mp3").currentIndex_ =
        (if samplePlaylist.tracks_ = [] then 0 else samplePlaylist.currentIndex_) ∧
      (samplePlaylist.addTrack "e.mp3").shuffleMode_ = samplePlaylist.shuffleMode_ ∧
      (samplePlaylist.addTrack "e.mp3").shuffledIndices_ =
        samplePlaylist.shuffledIndices_ ++ [samplePlaylist.size] ∧
      (samplePlaylist.addTrack "e.mp3").rng_ = samplePlaylist.rng_) :=
  ⟨cursorOK_sample, addTrack_effect samplePlaylist "e.mp3" cursorOK_sample⟩

/-- C10: `toggleLoopMode()` takes `None` to `All`, `All` to `Single` and `Single` to
`None`, changes no other member, and from every mode three calls come back to it
while one call and two calls do not. -/
theorem toggleLoopMode_cycle {B : Type} (m : MusicPlayer B) :
    ({ m with loopMode_ := LoopMode.None } : MusicPlayer B).toggleLoopMode
        = { m with loopMode_ := LoopMode.All } ∧
      ({ m with loopMode_ := LoopMode.All } : MusicPlayer B).toggleLoopMode
        = { m with loopMode_ := LoopMode.Single } ∧
      ({ m with loopMode_ := LoopMode.Single } : MusicPlayer B).toggleLoopMode
        = { m with loopMode_ := LoopMode.None } ∧
      m.toggleLoopMode.audioPlayer_ = m.audioPlayer_ ∧
      m.toggleLoopMode.playlist_ = m.playlist_ ∧
      m.toggleLoopMode.isRunning_ = m.isRunning_ ∧
      m.toggleLoopMode.toggleLoopMode.toggleLoopMode = m ∧
      m.toggleLoopMode.loopMode_ ≠ m.loopMode_ ∧
      m.toggleLoopMode.toggleLoopMode.loopMode_ ≠ m.loopMode_ := by
  obtain ⟨a, p, l, r⟩ := m
  cases l <;> simp [MusicPlayer.toggleLoopMode]

/-! ## The controller: auxiliary facts -/

/-- A well-formed non-empty playlist has a current track. -/
theorem getCurrentTrack_of_wellFormed (p : Playlist) (hwf : WellFormed p)
    (hne : p.tracks_ ≠ []) :
    ∃ t, p.getCurrentTrack = TrackPtr.track t ∧
      (p.shuffleMode_ = false → p.tracks_[p.currentIndex_.toNat]? = some t) := by
  obtain ⟨hc, hp, hn⟩ := hwf
  obtain ⟨h1, h2⟩ := (getCurrentTrack_of_invariants p hn hc hp).2 hne
  cases hs : p.shuffleMode_ with
  | false =>
    obtain ⟨t, ht1, ht2⟩ := h1 hs
    exact ⟨t, ht2, fun _ => ht1⟩
  | true =>
    obtain ⟨j, t, _, _, ht⟩ := h2 hs
    exact ⟨t, ht, fun h => Bool.noConfusion h⟩

/-- On an empty list `getCurrentTrack()` is the null pointer, whatever the cursor. -/
theorem getCurrentTrack_of_empty (p : Playlist) (he : p.tracks_ = []) :
    p.getCurrentTrack = TrackPtr.nullptr := by
  unfold Playlist.getCurrentTrack
  rw [if_neg]
  rw [he]
  intro h
  have : toInt ([] : List TrackInfo).length = 0 := by decide
  omega

/-- Well-formedness is kept by `next()`. -/
theorem wellFormed_next (p : Playlist) (hwf : WellFormed p) : WellFormed p.next.2 := by
  obtain ⟨hc, hp, hn⟩ := hwf
  refine ⟨cursorOK_next p hn hc, ?_, ?_⟩
  · have := permOK_apply rotateShuffle p Op.next hp
    exact this
  · unfold Playlist.next
    split <;> exact hn

/-- Well-formedness is kept by `previous()`. -/
theorem wellFormed_previous (p : Playlist) (hwf : WellFormed p) : WellFormed p.previous.2 := by
  obtain ⟨hc, hp, hn⟩ := hwf
  refine ⟨cursorOK_previous p hn hc, ?_, ?_⟩
  · have := permOK_apply rotateShuffle p Op.previous hp
    exact this
  · unfold Playlist.previous
    split <;> exact hn

/-- The playlist after `next()` on a non-empty well-formed playlist. -/
theorem next_of_wellFormed (p : Playlist) (hwf : WellFormed p) (hne : p.tracks_ ≠ []) :
    p.next = (true,
      { p with currentIndex_ := (p.currentIndex_ + 1) % (p.tracks_.length : Int) }) := by
  obtain ⟨hc, _, hn⟩ := hwf
  obtain ⟨h0, h1⟩ := hc.2 hne
  have e := next_cursor p hne hn (by omega) h1
  rw [← e]
  simp [Playlist.next, hne]

/-- The playlist after `previous()` on a non-empty well-formed playlist. -/
theorem previous_of_wellFormed (p : Playlist) (hwf : WellFormed p) (hne : p.tracks_ ≠ []) :
    p.previous = (true,
      { p with currentIndex_ := (p.currentIndex_ - 1) % (p.tracks_.length : Int) }) := by
  obtain ⟨hc, _, hn⟩ := hwf
  obtain ⟨h0, h1⟩ := hc.2 hne
  have e := previous_cursor p hne hn (by omega) h1
  rw [← e]
  simp [Playlist.previous, hne]

/-- Member `playCurrentTrack()` against a traced backend when there is a current
track: one load request, then one play request if the load succeeded. -/
theorem playCurrentTrack_of_track {B : Type} (A : AudioPlayer B)
    (m : MusicPlayer (B × List Call)) (t : TrackInfo)
    (h : m.playlist_.getCurrentTrack = TrackPtr.track t) :
    MusicPlayer.playCurrentTrack A.traced m =
      some ((A.load m.audioPlayer_.1 t.filepath).1,
        { m with audioPlayer_ := loadThenPlay A m.audioPlayer_ t.filepath }) := by
  unfold MusicPlayer.playCurrentTrack
  rw [h]
  simp only [AudioPlayer.traced, loadThenPlay]
  cases hl : (A.load m.audioPlayer_.1 t.filepath).1 <;> simp

/-- Member `playCurrentTrack()` when there is no current track. -/
theorem playCurrentTrack_of_nullptr {B : Type} (A : AudioPlayer B) (m : MusicPlayer B)
    (h : m.playlist_.getCurrentTrack = TrackPtr.nullptr) :
    MusicPlayer.playCurrentTrack A m = some (false, m) := by
  unfold MusicPlayer.playCurrentTrack
  rw [h]

/-- The playlist `[A, B]` is well-formed. -/
theorem wellFormed_playlistAB : WellFormed playlistAB := by
  unfold WellFormed CursorOK PermOK
  decide

/-- The playlist `[A, B, C]` is well-formed. -/
theorem wellFormed_playlistABC : WellFormed playlistABC := by
  unfold WellFormed CursorOK PermOK
  decide

/-! ## Properties of the controller -/

/-- C11, as stated, fails: on the playlist `[A, B, C]` with the cursor on `C` and
loop mode `None`, the handler of the end of a track makes no call to the backend, so
no `stop` either. -/
theorem onTrackEnd_off_at_end_no_stop :
    ∃ m, MusicPlayer.onTrackEnd sampleBackend.traced (controllerABC LoopMode.None) = some m ∧
      m.audioPlayer_.2 = [] ∧ Call.stop ∉ m.audioPlayer_.2 :=
  ⟨controllerABC LoopMode.None, by decide, by decide, by decide⟩

/-- C11, amended: with loop mode `None` and the cursor at the last position of a
playlist (of at most `INT_MAX` tracks), the handler of the end of a track changes
nothing: it makes no call to the backend (no `stop`, `load`, `play` or `seek`), the
cursor stays at the last index and the backend, hence the transport state it
reports, is as before. -/
theorem onTrackEnd_off_at_end {B : Type} (A : AudioPlayer B)
    (m : MusicPlayer (B × List Call)) (hmode : m.loopMode_ = LoopMode.None)
    (hn : m.playlist_.size ≤ INT_MAX)
    (hlast : m.playlist_.currentIndex_ = (m.playlist_.size : Int) - 1) :
    MusicPlayer.onTrackEnd A.traced m = some m ∧
      ∀ m', MusicPlayer.onTrackEnd A.traced m = some m' →
        m'.audioPlayer_.2 = m.audioPlayer_.2 ∧
        m'.playlist_.currentIndex_ = (m.playlist_.size : Int) - 1 ∧
        A.getState m'.audioPlayer_.1 = A.getState m.audioPlayer_.1 := by
  simp only [Playlist.size] at hn hlast ⊢
  have key : MusicPlayer.onTrackEnd A.traced m = some m := by
    unfold MusicPlayer.onTrackEnd
    rw [hmode]
    have hend : m.playlist_.isAtEnd = true := by
      simp only [Playlist.isAtEnd, decide_eq_true_eq, ge_iff_le]
      rw [toInt_of_le _ hn, hlast]
    simp [hend]
  refine ⟨key, fun m' hm' => ?_⟩
  rw [key] at hm'
  cases hm'
  exact ⟨rfl, hlast, rfl⟩

/-- Witness for the amended C11 at the playlist `[A, B, C]` with the cursor on `C`. -/
theorem onTrackEnd_off_at_end_witness :
    (controllerABC LoopMode.None).loopMode_ = LoopMode.None ∧
    playlistABC.tracks_ ≠ [] ∧ playlistABC.size ≤ INT_MAX ∧
    playlistABC.currentIndex_ = (playlistABC.size : Int) - 1 ∧
    MusicPlayer.onTrackEnd sampleBackend.traced (controllerABC LoopMode.None)
      = some (controllerABC LoopMode.None) :=
  ⟨rfl, by decide, by decide, by decide,
    (onTrackEnd_off_at_end sampleBackend (controllerABC LoopMode.None) rfl (by decide)
      (by decide)).1⟩

/-- C12: on a non-empty playlist of `n` tracks with cursor `c`, the handler of the end
of a track under `All`, or under `None` with `c` not the last position, sets the cursor
to `(c + 1) mod n` and plays the current track there: the backend gets a request to
load the path of that track and then, only if the load succeeded, a request to play.
With shuffle mode off that track is `tracks_[(c + 1) mod n]`. -/
theorem onTrackEnd_advances {B : Type} (A : AudioPlayer B)
    (m : MusicPlayer (B × List Call)) (hne : m.playlist_.tracks_ ≠ [])
    (hwf : WellFormed m.playlist_)
    (hmode : m.loopMode_ = LoopMode.All ∨
      (m.loopMode_ = LoopMode.None ∧
        m.playlist_.currentIndex_ ≠ (m.playlist_.size : Int) - 1)) :
    ∃ t,
      Playlist.getCurrentTrack
          { m.playlist_ with
            currentIndex_ := (m.playlist_.currentIndex_ + 1) % (m.playlist_.size : Int) }
        = TrackPtr.track t ∧
      (m.playlist_.shuffleMode_ = false →
        m.playlist_.tracks_[((m.playlist_.currentIndex_ + 1)
          % (m.playlist_.size : Int)).toNat]? = some t) ∧
      MusicPlayer.onTrackEnd A.traced m =
        some { m with
          playlist_ :=
            { m.playlist_ with
              currentIndex_ := (m.playlist_.currentIndex_ + 1) % (m.playlist_.size : Int) }
          audioPlayer_ := loadThenPlay A m.audioPlayer_ t.filepath } := by
  have hnext := next_of_wellFormed m.playlist_ hwf hne
  have hwf' := wellFormed_next m.playlist_ hwf
  rw [hnext] at hwf'
  obtain ⟨t, ht, hoff⟩ := getCurrentTrack_of_wellFormed _ hwf' hne
  refine ⟨t, ht, hoff, ?_⟩
  have hplay := playCurrentTrack_of_track A
    { m with playlist_ :=
        { m.playlist_ with
          currentIndex_ := (m.playlist_.currentIndex_ + 1) % (m.playlist_.tracks_.length : Int) } }
    t ht
  have hmove : MusicPlayer.onTrackEnd A.traced m =
      (MusicPlayer.playCurrentTrack A.traced
        { m with playlist_ := m.playlist_.next.2 }).map Prod.snd := by
    unfold MusicPlayer.onTrackEnd
    rcases hmode with hall | ⟨hnone, hnl⟩
    · rw [hall]
    · rw [hnone]
      have hend : m.playlist_.isAtEnd = false := by
        obtain ⟨hc, _, hn⟩ := hwf
        obtain ⟨h0, h1⟩ := hc.2 hne
        simp only [Playlist.isAtEnd, decide_eq_false_iff_not, ge_iff_le, not_le]
        rw [toInt_of_le _ hn]
        simp only [Playlist.size] at hnl
        omega
      simp [hend]
  rw [hmove, hnext]
  simp only [Playlist.size]
  rw [hplay]
  rfl

/-- Witness for C12 at the playlist `[A, B]` with the cursor on `B` and loop mode
`All`. -/
theorem onTrackEnd_advances_witness :
    playlistAB.tracks_ ≠ [] ∧ WellFormed playlistAB ∧
    ∃ t,
      Playlist.getCurrentTrack
          { (controllerAB LoopMode.All).playlist_ with
            currentIndex_ :=
              ((controllerAB LoopMode.All).playlist_.currentIndex_ + 1)
                % ((controllerAB LoopMode.All).playlist_.size : Int) }
        = TrackPtr.track t ∧
      ((controllerAB LoopMode.All).playlist_.shuffleMode_ = false →
        (controllerAB LoopMode.All).playlist_.tracks_[
          (((controllerAB LoopMode.All).playlist_.currentIndex_ + 1)
            % ((controllerAB LoopMode.All).playlist_.size : Int)).toNat]? = some t) ∧
      MusicPlayer.onTrackEnd sampleBackend.traced (controllerAB LoopMode.All) =
        some { controllerAB LoopMode.All with
          playlist_ :=
            { (controllerAB LoopMode.All).playlist_ with
              currentIndex_ :=
                ((controllerAB LoopMode.All).playlist_.currentIndex_ + 1)
                  % ((controllerAB LoopMode.All).playlist_.size : Int) }
          audioPlayer_ :=
            loadThenPlay sampleBackend (controllerAB LoopMode.All).audioPlayer_ t.filepath } :=
  ⟨by decide, wellFormed_playlistAB,
    onTrackEnd_advances sampleBackend (controllerAB LoopMode.All) (by decide)
      wellFormed_playlistAB (Or.inl rfl)⟩

/-- The scenario of C12: on `[A, B]` with the cursor on `B` and loop mode `All`, the
end of the track moves the cursor to `0` and asks the backend to load `A`, then to
play. -/
theorem onTrackEnd_repeatAll_AB :
    (MusicPlayer.onTrackEnd sampleBackend.traced (controllerAB LoopMode.All)).map
          (fun m => (m.playlist_.currentIndex_, m.audioPlayer_.2))
      = some (0, [Call.load "A.mp3", Call.play]) := by
  decide

/-- The handler of the end of a track under `Single`, against a traced backend. -/
theorem onTrackEnd_single {B : Type} (A : AudioPlayer B) (m : MusicPlayer (B × List Call))
    (hmode : m.loopMode_ = LoopMode.Single) :
    MusicPlayer.onTrackEnd A.traced m =
      some { m with
        audioPlayer_ :=
          (A.play (A.seek m.audioPlayer_.1 0),
            m.audioPlayer_.2 ++ [Call.seek 0, Call.play]) } := by
  unfold MusicPlayer.onTrackEnd
  rw [hmode]
  simp [AudioPlayer.traced]

/-- C13: under loop mode `Single` the handler of the end of a track makes exactly
the calls `seek(0)` and `play()` to the backend, in this order, and changes nothing
else of the controller; so does every further event: after `k + 1` events in a row
the playlist and the loop mode are as at the start, the calls made are `k + 1` times
`seek(0)`, `play()`, and, against a backend whose `seek` sets the position and whose
`play` sets the state to `Playing` and keeps the position, the position is `0` and
the state is `Playing`. -/
theorem onTrackEnd_repeatOne {B : Type} (A : AudioPlayer B)
    (m : MusicPlayer (B × List Call)) (hmode : m.loopMode_ = LoopMode.Single) :
    MusicPlayer.onTrackEnd A.traced m =
        some { m with
          audioPlayer_ :=
            (A.play (A.seek m.audioPlayer_.1 0),
              m.audioPlayer_.2 ++ [Call.seek 0, Call.play]) } ∧
      ∀ k : Nat, ∃ m',
        MusicPlayer.onTrackEndTimes A.traced (k + 1) m = some m' ∧
        m'.playlist_ = m.playlist_ ∧ m'.loopMode_ = LoopMode.Single ∧
        m'.isRunning_ = m.isRunning_ ∧
        m'.audioPlayer_.2 =
          m.audioPlayer_.2 ++ (List.replicate (k + 1) [Call.seek 0, Call.play]).flatten ∧
        ((∀ b s, A.getCurrentTime (A.seek b s) = s) →
          (∀ b, A.getState (A.play b) = PlayState.Playing ∧
            A.getCurrentTime (A.play b) = A.getCurrentTime b) →
          A.getCurrentTime m'.audioPlayer_.1 = 0 ∧
            A.getState m'.audioPlayer_.1 = PlayState.Playing) := by
  refine ⟨onTrackEnd_single A m hmode, fun k => ?_⟩
  induction k generalizing m with
  | zero =>
    refine ⟨{ m with
        audioPlayer_ :=
          (A.play (A.seek m.audioPlayer_.1 0),
            m.audioPlayer_.2 ++ [Call.seek 0, Call.play]) }, ?_, rfl, hmode, rfl, ?_, ?_⟩
    · simp only [MusicPlayer.onTrackEndTimes, onTrackEnd_single A m hmode, Option.some_bind]
    · simp
    · intro hseek hplay
      exact ⟨by rw [(hplay _).2, hseek], (hplay _).1⟩
  | succ k ih =>
    obtain ⟨m', h1, h2, h3, h4, h5, h6⟩ :=
      ih { m with
        audioPlayer_ :=
          (A.play (A.seek m.audioPlayer_.1 0),
            m.audioPlayer_.2 ++ [Call.seek 0, Call.play]) } hmode
    refine ⟨m', ?_, h2, h3, h4, ?_, h6⟩
    · rw [MusicPlayer.onTrackEndTimes, onTrackEnd_single A m hmode, Option.some_bind]
      exact h1
    · rw [h5]
      simp [List.replicate_succ]

/-- Witness for C13 at the sample backend and the playlist `[A, B]`, after three
events. -/
theorem onTrackEnd_repeatOne_witness :
    (controllerAB LoopMode.Single).loopMode_ = LoopMode.Single ∧
    (MusicPlayer.onTrackEnd sampleBackend.traced (controllerAB LoopMode.Single)).map
          (fun m => m.audioPlayer_.2) = some [Call.seek 0, Call.play] ∧
    ∃ m', MusicPlayer.onTrackEndTimes sampleBackend.traced 3
          (controllerAB LoopMode.Single) = some m' ∧
      m'.playlist_ = playlistAB ∧
      sampleBackend.getCurrentTime m'.audioPlayer_.1 = 0 ∧
      sampleBackend.getState m'.audioPlayer_.1 = PlayState.Playing := by
  have h := onTrackEnd_repeatOne sampleBackend (controllerAB LoopMode.Single) rfl
  refine ⟨rfl, ?_, ?_⟩
  · rw [h.1]
    rfl
  · obtain ⟨m', h1, h2, _, _, _, h6⟩ := h.2 2
    obtain ⟨h7, h8⟩ := h6 (fun _ _ => rfl) (fun _ => ⟨rfl, rfl⟩)
    exact ⟨m', h1, h2, h7, h8⟩

/-- C14: with the position `p` reported by the backend, `previous()` of the controller
for `p > 3` makes the one call `seek(0)` and leaves the playlist, so the cursor, as it
is, without a load; for `p <= 3` it does nothing on an empty playlist and otherwise
sets the cursor to `(c - 1) mod n` and plays the current track there: a request to
load its path and then, only if the load succeeded, a request to play. -/
theorem previous_threshold {B : Type} (A : AudioPlayer B)
    (m : MusicPlayer (B × List Call)) (hwf : WellFormed m.playlist_) :
    (A.getCurrentTime m.audioPlayer_.1 > 3 →
      MusicPlayer.previous A.traced m =
        some { m with
          audioPlayer_ := (A.seek m.audioPlayer_.1 0, m.audioPlayer_.2 ++ [Call.seek 0]) }) ∧
    (A.getCurrentTime m.audioPlayer_.1 ≤ 3 → m.playlist_.tracks_ = [] →
      MusicPlayer.previous A.traced m = some m) ∧
    (A.getCurrentTime m.audioPlayer_.1 ≤ 3 → m.playlist_.tracks_ ≠ [] →
      ∃ t,
        Playlist.getCurrentTrack
            { m.playlist_ with
              currentIndex_ := (m.playlist_.currentIndex_ - 1) % (m.playlist_.size : Int) }
          = TrackPtr.track t ∧
        (m.playlist_.shuffleMode_ = false →
          m.playlist_.tracks_[((m.playlist_.currentIndex_ - 1)
            % (m.playlist_.size : Int)).toNat]? = some t) ∧
        MusicPlayer.previous A.traced m =
          some { m with
            playlist_ :=
              { m.playlist_ with
                currentIndex_ := (m.playlist_.currentIndex_ - 1) % (m.playlist_.size : Int) }
            audioPlayer_ := loadThenPlay A m.audioPlayer_ t.filepath }) := by
  refine ⟨fun hp => ?_, fun hp he => ?_, fun hp hne => ?_⟩
  · unfold MusicPlayer.previous
    rw [if_pos (by simpa [AudioPlayer.traced] using hp)]
    simp [AudioPlayer.traced]
  · unfold MusicPlayer.previous
    rw [if_neg (by simpa [AudioPlayer.traced] using hp)]
    simp [Playlist.previous, he]
  · have hprev := previous_of_wellFormed m.playlist_ hwf hne
    have hwf' := wellFormed_previous m.playlist_ hwf
    rw [hprev] at hwf'
    obtain ⟨t, ht, hoff⟩ := getCurrentTrack_of_wellFormed _ hwf' hne
    refine ⟨t, ht, hoff, ?_⟩
    have hplay := playCurrentTrack_of_track A
      { m with playlist_ :=
          { m.playlist_ with
            currentIndex_ :=
              (m.playlist_.currentIndex_ - 1) % (m.playlist_.tracks_.length : Int) } }
      t ht
    unfold MusicPlayer.previous
    rw [if_neg (by simpa [AudioPlayer.traced] using hp), hprev]
    simp only [Playlist.size, if_true]
    rw [hplay]
    rfl

/-- Witness for C14 at the playlist `[A, B]` with the cursor on `B`, one second
into the track. -/
theorem previous_threshold_witness :
    WellFormed (controllerPlayingAt 1).playlist_ ∧
    sampleBackend.getCurrentTime (controllerPlayingAt 1).audioPlayer_.1 ≤ 3 ∧
    (controllerPlayingAt 1).playlist_.tracks_ ≠ [] ∧
    ∃ t,
      Playlist.getCurrentTrack
          { (controllerPlayingAt 1).playlist_ with
            currentIndex_ :=
              ((controllerPlayingAt 1).playlist_.currentIndex_ - 1)
                % ((controllerPlayingAt 1).playlist_.size : Int) }
        = TrackPtr.track t ∧
      ((controllerPlayingAt 1).playlist_.shuffleMode_ = false →
        (controllerPlayingAt 1).playlist_.tracks_[
          (((controllerPlayingAt 1).playlist_.currentIndex_ - 1)
            % ((controllerPlayingAt 1).playlist_.size : Int)).toNat]? = some t) ∧
      MusicPlayer.previous sampleBackend.traced (controllerPlayingAt 1) =
        some { controllerPlayingAt 1 with
          playlist_ :=
            { (controllerPlayingAt 1).playlist_ with
              currentIndex_ :=
                ((controllerPlayingAt 1).playlist_.currentIndex_ - 1)
                  % ((controllerPlayingAt 1).playlist_.size : Int) }
          audioPlayer_ :=
            loadThenPlay sampleBackend (controllerPlayingAt 1).audioPlayer_ t.filepath } :=
  ⟨wellFormed_playlistAB, by decide, by decide,
    (previous_threshold sampleBackend (controllerPlayingAt 1) wellFormed_playlistAB).2.2
      (by decide) (by decide)⟩

/-- The scenario of C14: on `[A, B]` with the cursor on `B`, `previous()` five
seconds into the track only seeks to `0`; one second into the track it moves the
cursor to `A`, loads it and plays. -/
theorem previous_scenario_AB :
    (MusicPlayer.previous sampleBackend.traced (controllerPlayingAt 5)).map
        (fun m => (m.playlist_.currentIndex_, m.audioPlayer_.2))
      = some (1, [Call.seek 0]) ∧
    (MusicPlayer.previous sampleBackend.traced (controllerPlayingAt 1)).map
        (fun m => (m.playlist_.currentIndex_, m.audioPlayer_.2))
      = some (0, [Call.load "A.mp3", Call.play]) ∧
    (MusicPlayer.previous sampleBackend.traced (controllerPlayingAt 3)).map
        (fun m => (m.playlist_.currentIndex_, m.audioPlayer_.2))
      = some (0, [Call.load "A.mp3", Call.play]) := by
  decide

/-- C15, as stated, fails: against a backend whose load succeeds and whose play
request has no effect, `playCurrentTrack()` on the playlist `[A, B]` makes the calls
`load("B.mp3")`, `play()` and returns `true`, though nothing is playing. -/
theorem playCurrentTrack_true_without_playing :
    ∃ m', MusicPlayer.playCurrentTrack (mutePlayer ["A.mp3", "B.mp3"]).traced
          (controllerAB LoopMode.None) = some (true, m') ∧
      m'.audioPlayer_.2 = [Call.load "B.mp3", Call.play] ∧
      (mutePlayer ["A.mp3", "B.mp3"]).getState m'.audioPlayer_.1 = PlayState.Stopped ∧
      (mutePlayer ["A.mp3", "B.mp3"]).isPlaying m'.audioPlayer_.1 = false :=
  ⟨{ controllerAB LoopMode.None with
      audioPlayer_ :=
        loadThenPlay (mutePlayer ["A.mp3", "B.mp3"]) (idlePlayerState, []) "B.mp3" },
    by decide, by decide, by decide, by decide⟩

/-- C15, amended: `playCurrentTrack()` returns `true` exactly when the playlist has a
current track and the load of its path succeeded; a play request is then made and
its outcome is not looked at.  On an empty playlist it returns `false` without a call
to the backend, on a failed load it returns `false` with the load as the only call,
and in every case the playlist, so the cursor, is as before. -/
theorem playCurrentTrack_result {B : Type} (A : AudioPlayer B)
    (m : MusicPlayer (B × List Call)) (hwf : WellFormed m.playlist_) :
    ∃ r, MusicPlayer.playCurrentTrack A.traced m = some r ∧
      r.2.playlist_ = m.playlist_ ∧ r.2.loopMode_ = m.loopMode_ ∧
      (m.playlist_.tracks_ = [] → r = (false, m)) ∧
      (m.playlist_.tracks_ ≠ [] →
        ∃ t, m.playlist_.getCurrentTrack = TrackPtr.track t ∧
          r.1 = (A.load m.audioPlayer_.1 t.filepath).1 ∧
          r.2.audioPlayer_.1 =
            (if (A.load m.audioPlayer_.1 t.filepath).1 then
              A.play (A.load m.audioPlayer_.1 t.filepath).2
            else (A.load m.audioPlayer_.1 t.filepath).2) ∧
          r.2.audioPlayer_.2 =
            m.audioPlayer_.2 ++
              (if (A.load m.audioPlayer_.1 t.filepath).1 then
                [Call.load t.filepath, Call.play]
              else [Call.load t.filepath])) ∧
      (r.1 = true ↔
        ∃ t, m.playlist_.getCurrentTrack = TrackPtr.track t ∧
          (A.load m.audioPlayer_.1 t.filepath).1 = true) := by
  by_cases he : m.playlist_.tracks_ = []
  · have hnull := getCurrentTrack_of_empty m.playlist_ he
    refine ⟨(false, m), playCurrentTrack_of_nullptr A.traced m hnull, rfl, rfl,
      fun _ => rfl, fun hne => absurd he hne, ?_⟩
    constructor
    · intro h
      exact Bool.noConfusion h
    · rintro ⟨t, ht, _⟩
      rw [hnull] at ht
      exact TrackPtr.noConfusion ht
  · obtain ⟨t, ht, _⟩ := getCurrentTrack_of_wellFormed _ hwf he
    refine ⟨_, playCurrentTrack_of_track A m t ht, rfl, rfl, fun h => absurd h he,
      fun _ => ⟨t, ht, rfl, ?_, ?_⟩, ?_⟩
    · simp only [loadThenPlay]
      split <;> rfl
    · simp only [loadThenPlay]
      split <;> rfl
    · constructor
      · intro h
        exact ⟨t, ht, h⟩
      · rintro ⟨t', ht', hl⟩
        rw [ht] at ht'
        cases ht'
        exact hl

/-- Witness for the amended C15 at the playlist `[A, B]` and the sample backend. -/
theorem playCurrentTrack_result_witness :
    WellFormed (controllerAB LoopMode.None).playlist_ ∧
    ∃ r, MusicPlayer.playCurrentTrack sampleBackend.traced (controllerAB LoopMode.None)
        = some r ∧
      r.2.playlist_ = playlistAB ∧ r.1 = true ∧
      r.2.audioPlayer_.2 = [Call.load "B.mp3", Call.play] := by
  refine ⟨wellFormed_playlistAB, ?_⟩
  obtain ⟨r, h1, h2, _, _, h5, _⟩ :=
    playCurrentTrack_result sampleBackend (controllerAB LoopMode.None) wellFormed_playlistAB
  obtain ⟨t, ht, h6, _, h8⟩ := h5 (by decide)
  have htB : t = TrackInfo.ofPath "B.mp3" := by
    have : (controllerAB LoopMode.None).playlist_.getCurrentTrack
        = TrackPtr.track (TrackInfo.ofPath "B.mp3") := by decide
    rw [this] at ht
    cases ht
    rfl
  subst htB
  exact ⟨r, h1, h2, h6, h8⟩

/-- The nearest integer is not below the floor. -/
theorem floor_le_halfEven (t : Rat) : ⌊t⌋ ≤ halfEven t := by
  unfold halfEven
  split_ifs <;> omega

/-- The nearest integer is not above the floor plus one. -/
theorem halfEven_le_floor_add_one (t : Rat) : halfEven t ≤ ⌊t⌋ + 1 := by
  unfold halfEven
  split_ifs <;> omega

/-- Rounding to the nearest integer is monotone. -/
theorem halfEven_mono {t u : Rat} (h : t ≤ u) : halfEven t ≤ halfEven u := by
  have hf : ⌊t⌋ ≤ ⌊u⌋ := Int.floor_mono h
  rcases lt_or_eq_of_le hf with hlt | heq
  · calc halfEven t ≤ ⌊t⌋ + 1 := halfEven_le_floor_add_one t
      _ ≤ ⌊u⌋ := hlt
      _ ≤ halfEven u := floor_le_halfEven u
  · unfold halfEven
    rw [heq]
    have hfr : t - (⌊u⌋ : Rat) ≤ u - (⌊u⌋ : Rat) := by linarith
    split_ifs <;> first | omega | (exfalso; linarith)

/-- The integer nearest to `0` is `0`. -/
theorem halfEven_zero : halfEven 0 = 0 := by
  simp [halfEven]

/-- The integer nearest to a non-negative rational is non-negative. -/
theorem halfEven_nonneg {t : Rat} (h : 0 ≤ t) : 0 ≤ halfEven t := by
  have := halfEven_mono h
  rwa [halfEven_zero] at this

/-- The spacing is positive. -/
theorem floatQuantum_pos (x : Rat) : 0 < floatQuantum x := by
  unfold floatQuantum
  positivity

/-- A non-negative rational rounds to a non-negative value. -/
theorem roundMagnitude_nonneg {x : Rat} (h : 0 ≤ x) : 0 ≤ roundMagnitude x := by
  unfold roundMagnitude
  have hq := floatQuantum_pos x
  have : 0 ≤ halfEven (x / floatQuantum x) := halfEven_nonneg (div_nonneg h hq.le)
  have h2 : (0 : Rat) ≤ (halfEven (x / floatQuantum x) : Rat) := by exact_mod_cast this
  positivity

/-- Zero rounds to zero. -/
theorem roundMagnitude_zero : roundMagnitude 0 = 0 := by
  simp [roundMagnitude, halfEven_zero]

/-- Upper bound: the rounded value does not pass the next power of two. -/
theorem roundMagnitude_le (x : Rat) :
    roundMagnitude x ≤ (2 : Rat) ^ (max (Int.log 2 x) (-126) + 1) := by
  have hq := floatQuantum_pos x
  have hlt : x < (2 : Rat) ^ (max (Int.log 2 x) (-126) + 1) := by
    have h1 : x < ((2 : ℕ) : Rat) ^ (Int.log 2 x + 1) := Int.lt_zpow_succ_log_self (by norm_num) x
    have h2 : ((2 : ℕ) : Rat) ^ (Int.log 2 x + 1) ≤ (2 : Rat) ^ (max (Int.log 2 x) (-126) + 1) := by
      push_cast
      exact zpow_le_zpow_right₀ (by norm_num) (by omega)
    exact lt_of_lt_of_le h1 h2
  have hdiv : x / floatQuantum x < (2 : Rat) ^ (24 : ℤ) := by
    rw [div_lt_iff₀ hq]
    have : (2 : Rat) ^ (24 : ℤ) * floatQuantum x = (2 : Rat) ^ (max (Int.log 2 x) (-126) + 1) := by
      unfold floatQuantum
      rw [← zpow_add₀ (by norm_num : (2 : Rat) ≠ 0)]
      congr 1
      omega
    rw [this]
    exact hlt
  have hfl : ⌊x / floatQuantum x⌋ < (2 : ℤ) ^ (24 : ℕ) := by
    rw [Int.floor_lt]
    have : (((2 : ℤ) ^ (24 : ℕ) : ℤ) : Rat) = (2 : Rat) ^ (24 : ℤ) := by norm_num
    rw [this]
    exact hdiv
  have hhe : halfEven (x / floatQuantum x) ≤ (2 : ℤ) ^ (24 : ℕ) := by
    have := halfEven_le_floor_add_one (x / floatQuantum x)
    omega
  have hheq : (halfEven (x / floatQuantum x) : Rat) ≤ (2 : Rat) ^ (24 : ℤ) := by
    have : ((halfEven (x / floatQuantum x) : ℤ) : Rat) ≤ (((2 : ℤ) ^ (24 : ℕ) : ℤ) : Rat) := by
      exact_mod_cast hhe
    calc (halfEven (x / floatQuantum x) : Rat) ≤ (((2 : ℤ) ^ (24 : ℕ) : ℤ) : Rat) := this
      _ = (2 : Rat) ^ (24 : ℤ) := by norm_num
  unfold roundMagnitude
  calc (halfEven (x / floatQuantum x) : Rat) * floatQuantum x
      ≤ (2 : Rat) ^ (24 : ℤ) * floatQuantum x := by
        exact mul_le_mul_of_nonneg_right hheq hq.le
    _ = (2 : Rat) ^ (max (Int.log 2 x) (-126) + 1) := by
      unfold floatQuantum
      rw [← zpow_add₀ (by norm_num : (2 : Rat) ≠ 0)]
      congr 1
      omega

/-- Lower bound: a normal value is not rounded below its power of two. -/
theorem le_roundMagnitude {x : Rat} (h : 0 < x) (hn : -126 ≤ Int.log 2 x) :
    (2 : Rat) ^ (Int.log 2 x) ≤ roundMagnitude x := by
  have hq := floatQuantum_pos x
  have hmax : max (Int.log 2 x) (-126) = Int.log 2 x := max_eq_left hn
  have hle : (2 : Rat) ^ (Int.log 2 x) ≤ x := by
    have := Int.zpow_log_le_self (b := 2) (r := x) (by norm_num) h
    simpa using this
  have hqe : (2 : Rat) ^ (23 : ℤ) * floatQuantum x = (2 : Rat) ^ (Int.log 2 x) := by
    unfold floatQuantum
    rw [hmax, ← zpow_add₀ (by norm_num : (2 : Rat) ≠ 0)]
    congr 1
    omega
  have hdiv : (2 : Rat) ^ (23 : ℤ) ≤ x / floatQuantum x := by
    rw [le_div_iff₀ hq, hqe]
    exact hle
  have hfl : (2 : ℤ) ^ (23 : ℕ) ≤ ⌊x / floatQuantum x⌋ := by
    rw [Int.le_floor]
    have : (((2 : ℤ) ^ (23 : ℕ) : ℤ) : Rat) = (2 : Rat) ^ (23 : ℤ) := by norm_num
    rw [this]
    exact hdiv
  have hhe : (2 : ℤ) ^ (23 : ℕ) ≤ halfEven (x / floatQuantum x) :=
    le_trans hfl (floor_le_halfEven _)
  have hheq : (2 : Rat) ^ (23 : ℤ) ≤ (halfEven (x / floatQuantum x) : Rat) := by
    have : (((2 : ℤ) ^ (23 : ℕ) : ℤ) : Rat) ≤ ((halfEven (x / floatQuantum x) : ℤ) : Rat) := by
      exact_mod_cast hhe
    calc (2 : Rat) ^ (23 : ℤ) = (((2 : ℤ) ^ (23 : ℕ) : ℤ) : Rat) := by norm_num
      _ ≤ _ := this
  unfold roundMagnitude
  calc (2 : Rat) ^ (Int.log 2 x) = (2 : Rat) ^ (23 : ℤ) * floatQuantum x := hqe.symm
    _ ≤ (halfEven (x / floatQuantum x) : Rat) * floatQuantum x :=
      mul_le_mul_of_nonneg_right hheq hq.le

/-- Rounding is monotone on the non-negative rationals: within a binade by the
monotonicity of the nearest integer, across binades by the two bounds. -/
theorem roundMagnitude_mono {x y : Rat} (hx : 0 ≤ x) (h : x ≤ y) :
    roundMagnitude x ≤ roundMagnitude y := by
  rcases eq_or_lt_of_le hx with h0 | hpos
  · rw [← h0, roundMagnitude_zero]
    exact roundMagnitude_nonneg (le_trans hx h)
  · have hypos : 0 < y := lt_of_lt_of_le hpos h
    have hlog : Int.log 2 x ≤ Int.log 2 y := Int.log_mono_right hpos h
    by_cases he : max (Int.log 2 x) (-126) = max (Int.log 2 y) (-126)
    · have hq : floatQuantum x = floatQuantum y := by
        unfold floatQuantum
        rw [he]
      unfold roundMagnitude
      rw [hq]
      have hqp := floatQuantum_pos y
      have hd : x / floatQuantum y ≤ y / floatQuantum y := by
        exact div_le_div_of_nonneg_right h hqp.le
      have := halfEven_mono hd
      have hc : (halfEven (x / floatQuantum y) : Rat) ≤ (halfEven (y / floatQuantum y) : Rat) := by
        exact_mod_cast this
      exact mul_le_mul_of_nonneg_right hc hqp.le
    · have hlt : max (Int.log 2 x) (-126) + 1 ≤ Int.log 2 y := by omega
      have hny : -126 ≤ Int.log 2 y := by omega
      calc roundMagnitude x ≤ (2 : Rat) ^ (max (Int.log 2 x) (-126) + 1) := roundMagnitude_le x
        _ ≤ (2 : Rat) ^ (Int.log 2 y) := zpow_le_zpow_right₀ (by norm_num) hlt
        _ ≤ roundMagnitude y := le_roundMagnitude hypos hny

/-- Rounding to `float` is monotone. -/
theorem roundFloat_mono {x y : Rat} (h : x ≤ y) : roundFloat x ≤ roundFloat y := by
  unfold roundFloat
  by_cases hx : x < 0
  · by_cases hy : y < 0
    · rw [if_pos hx, if_pos hy]
      have := roundMagnitude_mono (x := -y) (y := -x) (by linarith) (by linarith)
      linarith
    · rw [if_pos hx, if_neg hy]
      have h1 := roundMagnitude_nonneg (x := -x) (by linarith)
      have h2 := roundMagnitude_nonneg (x := y) (by linarith)
      linarith
  · have hy : ¬ y < 0 := by
      intro hy
      exact hx (lt_of_le_of_lt h hy)
    rw [if_neg hx, if_neg hy]
    exact roundMagnitude_mono (by linarith) h

/-- Rounding to `float` keeps `0`. -/
theorem roundFloat_zero : roundFloat 0 = 0 := by
  simp [roundFloat, roundMagnitude_zero]

/-- The integer nearest to `t` is `n` when `t` is within less than a half of `n`. -/
theorem halfEven_eq_of_near {t : Rat} {n : Int} (hlo : (n : Rat) - 1 / 2 < t)
    (hhi : t < (n : Rat) + 1 / 2) : halfEven t = n := by
  by_cases hge : (n : Rat) ≤ t
  · have hf : ⌊t⌋ = n := by
      rw [Int.floor_eq_iff]
      exact ⟨hge, by linarith⟩
    unfold halfEven
    rw [hf, if_pos (by linarith)]
  · have hf : ⌊t⌋ = n - 1 := by
      rw [Int.floor_eq_iff]
      push_cast
      exact ⟨by linarith, by linarith⟩
    unfold halfEven
    rw [hf]
    push_cast
    rw [if_neg (by linarith), if_pos (by linarith)]
    omega

/-- Evaluation of the rounding of `x` in the binade of `2^e`, when `x` is within less
than half a spacing of `n` spacings. -/
theorem roundMagnitude_eq_of_near {x : Rat} {e n : Int} (h1 : (2 : Rat) ^ e ≤ x)
    (h2 : x < (2 : Rat) ^ (e + 1)) (he : -126 ≤ e)
    (hlo : (n : Rat) - 1 / 2 < x / (2 : Rat) ^ (e - 23))
    (hhi : x / (2 : Rat) ^ (e - 23) < (n : Rat) + 1 / 2) :
    roundMagnitude x = (n : Rat) * (2 : Rat) ^ (e - 23) := by
  have hx : 0 < x := lt_of_lt_of_le (by positivity) h1
  have hlog : Int.log 2 x = e := by
    apply le_antisymm
    · have : Int.log 2 x < e + 1 := by
        rw [← Int.lt_zpow_iff_log_lt (by norm_num) hx]
        simpa using h2
      omega
    · rw [← Int.zpow_le_iff_le_log (by norm_num) hx]
      simpa using h1
  have hq : floatQuantum x = (2 : Rat) ^ (e - 23) := by
    unfold floatQuantum
    rw [hlog, max_eq_left he]
  unfold roundMagnitude
  rw [hq, halfEven_eq_of_near hlo hhi]

/-- The value `5` is a `float`. -/
theorem roundFloat_five : roundFloat 5 = 5 := by
  unfold roundFloat
  rw [if_neg (by norm_num)]
  rw [roundMagnitude_eq_of_near (e := 2) (n := 10485760) (by norm_num) (by norm_num)
    (by norm_num) (by norm_num) (by norm_num)]
  norm_num

/-- The sum `5 + 10` is a `float`. -/
theorem roundFloat_fifteen : roundFloat (5 + 10) = 15 := by
  unfold roundFloat
  rw [if_neg (by norm_num)]
  rw [roundMagnitude_eq_of_near (e := 3) (n := 15728640) (by norm_num) (by norm_num)
    (by norm_num) (by norm_num) (by norm_num)]
  norm_num

/-- The value `float_0_005` is a `float`. -/
theorem roundFloat_float_0_005 : roundFloat float_0_005 = float_0_005 := by
  unfold roundFloat float_0_005
  rw [if_neg (by norm_num)]
  rw [roundMagnitude_eq_of_near (e := -8) (n := 10737418) (by norm_num) (by norm_num)
    (by norm_num) (by norm_num) (by norm_num)]
  norm_num

/-- The `float` sum of `float_0_005` and `10` is `float_10_005`. -/
theorem roundFloat_short_sum : roundFloat (float_0_005 + 10) = float_10_005 := by
  unfold roundFloat float_0_005 float_10_005
  rw [if_neg (by norm_num)]
  rw [roundMagnitude_eq_of_near (e := 3) (n := 10491003) (by norm_num) (by norm_num)
    (by norm_num) (by norm_num) (by norm_num)]
  norm_num

/-! ## Seeking -/

/-- Member `seekForward(seconds)` against a traced backend: one `seek` to the rounded
sum if it is below the duration, no call otherwise. -/
theorem seekForward_traced {B : Type} (fl : Rat → Rat) (A : AudioPlayer B)
    (m : MusicPlayer (B × List Call)) (delta : Rat) :
    MusicPlayer.seekForward fl A.traced m delta =
      if fl (A.getCurrentTime m.audioPlayer_.1 + delta) < A.getDuration m.audioPlayer_.1 then
        { m with
          audioPlayer_ :=
            (A.seek m.audioPlayer_.1 (fl (A.getCurrentTime m.audioPlayer_.1 + delta)),
              m.audioPlayer_.2 ++
                [Call.seek (fl (A.getCurrentTime m.audioPlayer_.1 + delta))]) }
      else m := by
  unfold MusicPlayer.seekForward
  simp only [AudioPlayer.traced]

/-- Member `seekBackward(seconds)` against a traced backend: one `seek` to the rounded
difference, or to `0` if that is negative. -/
theorem seekBackward_traced {B : Type} (fl : Rat → Rat) (A : AudioPlayer B)
    (m : MusicPlayer (B × List Call)) (delta : Rat) :
    MusicPlayer.seekBackward fl A.traced m delta =
      { m with
        audioPlayer_ :=
          (A.seek m.audioPlayer_.1 (max 0 (fl (A.getCurrentTime m.audioPlayer_.1 - delta))),
            m.audioPlayer_.2 ++
              [Call.seek (max 0 (fl (A.getCurrentTime m.audioPlayer_.1 - delta)))]) } := by
  unfold MusicPlayer.seekBackward
  simp only [AudioPlayer.traced]
  by_cases hneg : fl (A.getCurrentTime m.audioPlayer_.1 - delta) < 0
  · rw [if_pos hneg, max_eq_left (le_of_lt hneg)]
  · rw [if_neg hneg, max_eq_right (not_lt.mp hneg)]

/-- C17, as stated, fails: with nothing loaded the stub backend reports the position
`0` and the duration `0`, and `seekBackward(10)` makes the call `seek(0)`, a target
outside the empty interval `[0, 0)`. -/
theorem seekBackward_target_not_below_duration :
    stubAudioPlayer.getCurrentTime (stubControllerAB LoopMode.None).audioPlayer_.1 = 0 ∧
    stubAudioPlayer.getDuration (stubControllerAB LoopMode.None).audioPlayer_.1 = 0 ∧
    (MusicPlayer.seekBackward roundFloat stubAudioPlayer.traced
        (stubControllerAB LoopMode.None) 10).audioPlayer_.2 = [Call.seek 0] ∧
    ¬ ((0 : Rat) ≤ 0 ∧
      (0 : Rat) < stubAudioPlayer.getDuration (stubControllerAB LoopMode.None).audioPlayer_.1) := by
  refine ⟨rfl, rfl, ?_, ?_⟩
  · have hle : roundFloat ((0 : Rat) - 10) ≤ 0 := by
      have := roundFloat_mono (x := (0 : Rat) - 10) (y := 0) (by norm_num)
      rwa [roundFloat_zero] at this
    rw [seekBackward_traced]
    simp only [stubAudioPlayer, stubControllerAB, playerOf, List.nil_append]
    rw [max_eq_left hle]
  · simp [stubAudioPlayer]

/-- C17, amended: with the position `p >= 0` (a `float` value) and the duration `d`
reported by the backend, `delta >= 0` and `fl` the rounding of a `float` result
(monotone, exact at `0`), `seekForward(delta)` makes the one call `seek(fl(p + delta))`
if `fl(p + delta) < d`, a target in `[0, d)`, and no call otherwise;
`seekBackward(delta)` makes the one call `seek(max(0, fl(p - delta)))`, a target in
`[0, p]`, which is below `d` when `p < d`. -/
theorem seek_targets {B : Type} (fl : Rat → Rat) (A : AudioPlayer B)
    (m : MusicPlayer (B × List Call)) (delta : Rat)
    (hmono : ∀ x y, x ≤ y → fl x ≤ fl y) (hzero : fl 0 = 0)
    (hfloat : fl (A.getCurrentTime m.audioPlayer_.1) = A.getCurrentTime m.audioPlayer_.1)
    (hp : 0 ≤ A.getCurrentTime m.audioPlayer_.1) (hdelta : 0 ≤ delta) :
    (fl (A.getCurrentTime m.audioPlayer_.1 + delta) < A.getDuration m.audioPlayer_.1 →
      MusicPlayer.seekForward fl A.traced m delta =
        { m with
          audioPlayer_ :=
            (A.seek m.audioPlayer_.1 (fl (A.getCurrentTime m.audioPlayer_.1 + delta)),
              m.audioPlayer_.2 ++
                [Call.seek (fl (A.getCurrentTime m.audioPlayer_.1 + delta))]) } ∧
        0 ≤ fl (A.getCurrentTime m.audioPlayer_.1 + delta)) ∧
    (¬ fl (A.getCurrentTime m.audioPlayer_.1 + delta) < A.getDuration m.audioPlayer_.1 →
      MusicPlayer.seekForward fl A.traced m delta = m) ∧
    MusicPlayer.seekBackward fl A.traced m delta =
      { m with
        audioPlayer_ :=
          (A.seek m.audioPlayer_.1 (max 0 (fl (A.getCurrentTime m.audioPlayer_.1 - delta))),
            m.audioPlayer_.2 ++
              [Call.seek (max 0 (fl (A.getCurrentTime m.audioPlayer_.1 - delta)))]) } ∧
    0 ≤ max 0 (fl (A.getCurrentTime m.audioPlayer_.1 - delta)) ∧
    max 0 (fl (A.getCurrentTime m.audioPlayer_.1 - delta))
      ≤ A.getCurrentTime m.audioPlayer_.1 ∧
    (A.getCurrentTime m.audioPlayer_.1 < A.getDuration m.audioPlayer_.1 →
      max 0 (fl (A.getCurrentTime m.audioPlayer_.1 - delta))
        < A.getDuration m.audioPlayer_.1) := by
  have hsub : fl (A.getCurrentTime m.audioPlayer_.1 - delta)
      ≤ A.getCurrentTime m.audioPlayer_.1 := by
    have := hmono (A.getCurrentTime m.audioPlayer_.1 - delta)
      (A.getCurrentTime m.audioPlayer_.1) (by linarith)
    rwa [hfloat] at this
  have hle : max 0 (fl (A.getCurrentTime m.audioPlayer_.1 - delta))
      ≤ A.getCurrentTime m.audioPlayer_.1 := max_le hp hsub
  have hadd : 0 ≤ fl (A.getCurrentTime m.audioPlayer_.1 + delta) := by
    have := hmono 0 (A.getCurrentTime m.audioPlayer_.1 + delta) (by linarith)
    rwa [hzero] at this
  refine ⟨fun h => ⟨?_, hadd⟩, fun h => ?_, seekBackward_traced fl A m delta,
    le_max_left _ _, hle, fun h => lt_of_le_of_lt hle h⟩
  · rw [seekForward_traced, if_pos h]
  · rw [seekForward_traced, if_neg h]

/-- Witness for the amended C17 at the binary32 rounding and the sample backend five
seconds into a track of 180 seconds, with `delta = 10`: the calls are `seek(15)` and
`seek(0)`. -/
theorem seek_targets_witness :
    (∀ x y, x ≤ y → roundFloat x ≤ roundFloat y) ∧ roundFloat 0 = 0 ∧
    roundFloat (sampleBackend.getCurrentTime (controllerPlayingAt 5).audioPlayer_.1)
      = sampleBackend.getCurrentTime (controllerPlayingAt 5).audioPlayer_.1 ∧
    0 ≤ sampleBackend.getCurrentTime (controllerPlayingAt 5).audioPlayer_.1 ∧
    (0 : Rat) ≤ 10 ∧
    (MusicPlayer.seekForward roundFloat sampleBackend.traced (controllerPlayingAt 5)
        10).audioPlayer_.2 = [Call.seek 15] ∧
    (MusicPlayer.seekBackward roundFloat sampleBackend.traced (controllerPlayingAt 5)
        10).audioPlayer_.2 = [Call.seek 0] := by
  have hmono : ∀ x y, x ≤ y → roundFloat x ≤ roundFloat y := fun _ _ h => roundFloat_mono h
  have hfloat :
      roundFloat (sampleBackend.getCurrentTime (controllerPlayingAt 5).audioPlayer_.1)
        = sampleBackend.getCurrentTime (controllerPlayingAt 5).audioPlayer_.1 :=
    roundFloat_five
  have hp : 0 ≤ sampleBackend.getCurrentTime (controllerPlayingAt 5).audioPlayer_.1 := by
    decide
  have h := seek_targets roundFloat sampleBackend (controllerPlayingAt 5) 10 hmono
    roundFloat_zero hfloat hp (by decide)
  have hsum : roundFloat (sampleBackend.getCurrentTime (controllerPlayingAt 5).audioPlayer_.1
      + 10) = 15 := roundFloat_fifteen
  have hlt : roundFloat (sampleBackend.getCurrentTime (controllerPlayingAt 5).audioPlayer_.1
      + 10) < sampleBackend.getDuration (controllerPlayingAt 5).audioPlayer_.1 := by
    rw [hsum]
    decide
  have hback : max 0 (roundFloat
      (sampleBackend.getCurrentTime (controllerPlayingAt 5).audioPlayer_.1 - 10)) = 0 := by
    apply max_eq_left
    have := roundFloat_mono
      (x := sampleBackend.getCurrentTime (controllerPlayingAt 5).audioPlayer_.1 - 10)
      (y := 0) (by
        show (5 : Rat) - 10 ≤ 0
        norm_num)
    rwa [roundFloat_zero] at this
  refine ⟨hmono, roundFloat_zero, hfloat, hp, by decide, ?_, ?_⟩
  · rw [(h.1 hlt).1, hsum]
    rfl
  · rw [h.2.2.1, hback]
    rfl

/-- The rounding matters: five milliseconds into a track of `10.005` seconds the
exact sum `p + 10` is below the duration, but the `float` sum is the duration itself,
and `seekForward(10)` makes no call. -/
theorem seekForward_rounded_sum_reaches_duration :
    sampleBackend.getCurrentTime controllerShortTrack.audioPlayer_.1 + 10
      < sampleBackend.getDuration controllerShortTrack.audioPlayer_.1 ∧
    MusicPlayer.seekForward roundFloat sampleBackend.traced controllerShortTrack 10
      = controllerShortTrack := by
  constructor
  · show float_0_005 + 10 < float_10_005
    unfold float_0_005 float_10_005
    norm_num
  · rw [seekForward_traced]
    have : roundFloat (sampleBackend.getCurrentTime controllerShortTrack.audioPlayer_.1 + 10)
        = sampleBackend.getDuration controllerShortTrack.audioPlayer_.1 :=
      roundFloat_short_sum
    rw [if_neg (by rw [this]; exact lt_irrefl _)]

/-- The integer nearest to `n + 1/2` is `n` when `n` is even. -/
theorem halfEven_eq_of_tie_even {t : Rat} {n : Int} (ht : t = (n : Rat) + 1 / 2)
    (hn : n % 2 = 0) : halfEven t = n := by
  have hf : ⌊t⌋ = n := by
    rw [Int.floor_eq_iff]
    exact ⟨by linarith, by linarith⟩
  unfold halfEven
  rw [hf, if_neg (by linarith), if_neg (by linarith), if_pos hn]

/-- The `float` sum of `float_127_999` and `10`: the exact sum lies half-way between
two `float` values and goes to the one with the even significand. -/
theorem roundFloat_tie_sum : roundFloat (float_127_999 + 10) = 4521951 / 32768 := by
  have hx : (0 : Rat) < float_127_999 + 10 := by
    unfold float_127_999
    norm_num
  have hlog : Int.log 2 (float_127_999 + 10) = 7 := by
    apply le_antisymm
    · have : Int.log 2 (float_127_999 + 10) < 7 + 1 := by
        rw [← Int.lt_zpow_iff_log_lt (by norm_num) hx]
        unfold float_127_999
        norm_num
      omega
    · rw [← Int.zpow_le_iff_le_log (by norm_num) hx]
      unfold float_127_999
      norm_num
  have hq : floatQuantum (float_127_999 + 10) = (2 : Rat) ^ (-16 : ℤ) := by
    unfold floatQuantum
    rw [hlog]
    norm_num
  unfold roundFloat
  rw [if_neg (not_lt.mpr hx.le)]
  unfold roundMagnitude
  rw [hq, halfEven_eq_of_tie_even (n := 9043902) (by unfold float_127_999; norm_num)
    (by decide)]
  norm_num

/-- The target is the rounded sum: `127.999` seconds into a track of 180 seconds,
`seekForward(10)` makes the call `seek(4521951 / 32768)`, which is not the exact sum
of the position and `10`. -/
theorem seekForward_target_is_rounded :
    (MusicPlayer.seekForward roundFloat sampleBackend.traced
        (controllerPlayingAt float_127_999) 10).audioPlayer_.2
      = [Call.seek (4521951 / 32768)] ∧
    (4521951 / 32768 : Rat) ≠ float_127_999 + 10 := by
  constructor
  · rw [seekForward_traced]
    have hsum : roundFloat
        (sampleBackend.getCurrentTime (controllerPlayingAt float_127_999).audioPlayer_.1 + 10)
        = 4521951 / 32768 := roundFloat_tie_sum
    have hd : sampleBackend.getDuration (controllerPlayingAt float_127_999).audioPlayer_.1
        = 180 := rfl
    rw [hsum, hd, if_pos (by norm_num)]
    rfl
  · unfold float_127_999
    norm_num

end MusicApp
